import Mathlib

set_option maxRecDepth 100000

/-
Verification development for the thread-safe slab cache
(cache_t in the thread-context version, together with slab_t).

The model is a shallow embedding of the owner-thread operations plus
cross-thread (remote) frees.  Machine integers are modelled as Nat with
explicit reduction mod 2^32 where the source uses uint32_t arithmetic.
Pointer-linked freelists (local_head / atomic_head chains threaded through
object memory) are modelled as lists of object addresses: the first
pointer-sized word of each free object holds the next chain element, so a
chain is exactly a list of addresses.  mmap is modelled by an address
supplied with the allocation event; the OS guarantee (page-aligned,
non-null, fresh memory) is checked against the recorded mappings.
-/

def U32 : Nat := 4294967296

/-- align_up from the anonymous namespace: (n + align - 1) & ~(align - 1).
For the power-of-two alignments used by the cache this equals rounding up
to the next multiple, written here with mod instead of bit masking. -/
def align_up (n a : Nat) : Nat := (n + a - 1) - (n + a - 1) % a

/-- Fuel-driven floor log2 (structurally recursive so that concrete
geometry computes by kernel reduction; agrees with Nat.log2 when the fuel
is at least the argument). -/
def log2fuel : Nat → Nat → Nat
  | 0, _ => 0
  | f + 1, n => if 2 ≤ n then log2fuel f (n / 2) + 1 else 0

/-- (1 << (32 - __builtin_clz(n - 1))): the next power of two at least n,
for 2 <= n with n - 1 in clz range; 32 - clz32 (n-1) = floor log2 (n-1) + 1. -/
def pow2ceil (n : Nat) : Nat := 2 ^ (log2fuel (n - 1) (n - 1) + 1)

/-- uint32_t subtraction a - b with wrap-around. -/
def sub32 (a b : Nat) : Nat := (a + (U32 - b % U32)) % U32

/-- Geometry and configuration of one cache_t instance: every field the
constructor computes, plus the presence of the ctor/dtor hooks (the hooks
only matter through when they are invoked, so they are carried as flags
and invocations are logged). -/
structure Geom where
  obj_size : Nat
  obj_cnt : Nat
  page_size : Nat
  pages_per_chunk : Nat
  color : Nat
  color_offset : Nat
  cons : Bool
  dest : Bool
deriving Repr, DecidableEq

/-- The cache_t constructor.  CACHE_LINE_SIZE is the sysconf default 64;
sizeof(slab_t) = 56 (two list pointers, atomic_head, local_head, owner,
mem = 6*8 bytes, the uint32 count and the flag byte, padded to 8).
object_size is cast to uint32_t, clamped below by MIN_OBJECT_SIZE = 16 and
sizeof(void*) = 8, rounded to a power of two; the slab byte size is the
power-of-two round-up of obj_size * MIN_OBJECTS_PER_SLAB + padded metadata,
at least 4096; chunks target TARGET_CHUNK_SIZE = 2 MiB. -/
def mkCache (object_size : Nat) (cons dest : Bool) : Geom :=
  let os0 := max (object_size % U32) 16
  let os1 := if os0 < 8 then 8 else os0
  let os := pow2ceil os1
  let metadata_req := align_up 56 64
  let required := (os * 8 + metadata_req) % U32
  let ps0 := pow2ceil required
  let ps := if ps0 < 4096 then 4096 else ps0
  let ppc0 := 2097152 / ps
  let ppc := if ppc0 = 0 then 1 else ppc0
  let cnt := (ps - metadata_req) / os
  let size_left := ps - (metadata_req + cnt * os)
  ⟨os, cnt, ps, ppc, size_left / 64 + 1, 64, cons, dest⟩

/-- slab_t: base is the address of the header (start of the slab region),
color_idx the coloring index chosen at initialization (mem is derived from
it), local_head and atomic_head the two freelist chains as address lists,
active_obj_cnt the uint32 count, owner whether the modelled owner thread
context holds the slab (nullptr owner = false). -/
structure Slab where
  base : Nat
  color_idx : Nat
  local_head : List Nat
  atomic_head : List Nat
  active_obj_cnt : Nat
  owner : Bool
deriving Repr, DecidableEq

instance : Inhabited Slab := ⟨⟨0, 0, [], [], 0, false⟩⟩

/-- The mem field computed by initialize_slab: object region start =
align_up(base + sizeof(slab_t), CACHE_LINE_SIZE) + color_idx * color_offset. -/
def Slab.memAddr (g : Geom) (s : Slab) : Nat :=
  align_up (s.base + 56) 64 + s.color_idx * g.color_offset

/-- Addresses of the obj_cnt object slots of a slab. -/
def slotAddrs (g : Geom) (s : Slab) : List Nat :=
  (List.range g.obj_cnt).map (fun i => s.memAddr g + i * g.obj_size)

/-- Cache state visible to the single modelled owner thread: its
thread_context (active slab, the three sentinel lists, empty_slab_count,
scavenge_cooldown), the cache-level global empty pool, color_next,
mapped_pages bookkeeping, plus the ghost list of live (allocated and not
yet freed) object addresses. -/
structure State where
  active : Option Slab
  list_part : List Slab
  list_full : List Slab
  list_empty : List Slab
  empty_slab_count : Nat
  scavenge_cooldown : Nat
  global_empty : List Slab
  color_next : Nat
  mapped_pages : List (Nat × Nat)
  live : List Nat
deriving Repr, DecidableEq

/-- A state together with the history of returned addresses and hook
invocations ((true, a) = constructor on a, (false, a) = destructor on a). -/
structure Trace where
  st : State
  rets : List Nat
  hooks : List (Bool × Nat)
deriving Repr, DecidableEq

/-- Result of one operation: ok, process abort (failed assert), or
undefined behaviour (the model refuses to continue: null/garbage
dereference, free of a non-live pointer, OS contract violation). -/
inductive Outcome (α : Type) where
  | ub : Outcome α
  | abort : Outcome α
  | ok : α → Outcome α
deriving Repr, DecidableEq

/-- initialize_slab at address base: placement-new header, chain the
obj_cnt slots in ascending order through their own memory, local_head =
first slot, counts zero, no owner. -/
def init_slab (g : Geom) (base cidx : Nat) : Slab :=
  { base := base, color_idx := cidx,
    local_head :=
      (List.range g.obj_cnt).map
        (fun i => (align_up (base + 56) 64 + cidx * g.color_offset) + i * g.obj_size),
    atomic_head := [], active_obj_cnt := 0, owner := false }

/-- allocate_free_slab: record the mapping, align the base up to a
page_size boundary when needed (losing one slab of the chunk), and
initialize each usable slab, each drawing a color index from the shared
color_next counter and being linked after the global_empty sentinel
(prepended). -/
def allocate_free_slab (g : Geom) (b : Nat) (st : State) : State :=
  let alloc_size := g.page_size * g.pages_per_chunk
  let mem_location := if b % g.page_size = 0 then b else align_up b g.page_size
  let n := g.pages_per_chunk - (if b % g.page_size = 0 then 0 else 1)
  let fresh := (List.range n).map
    (fun i => init_slab g (mem_location + g.page_size * i) (((st.color_next + i) % U32) % g.color))
  { st with mapped_pages := st.mapped_pages ++ [(b, alloc_size)],
            global_empty := fresh.reverse ++ st.global_empty,
            color_next := (st.color_next + n) % U32 }

/-- The chain walk of reclaim_remote: count the nodes. -/
def chain_count : List Nat → Nat
  | [] => 0
  | _ :: t => chain_count t + 1

/-- The chain walk of reclaim_remote: the last node's link is pointed at
the old local_head, so the local chain becomes the remote chain followed
by the old local chain. -/
def chain_splice : List Nat → List Nat → List Nat
  | [], l => l
  | [a], l => a :: l
  | a :: b :: t, l => a :: chain_splice (b :: t) l

/-- reclaim_remote: exchange atomic_head with null; if the chain is
non-null, walk it counting nodes, splice local_head onto its tail, set
local_head to the chain head and subtract the count from active_obj_cnt
(uint32). Returns the count. -/
def reclaim_remote (s : Slab) : Nat × Slab :=
  match s.atomic_head with
  | [] => (0, s)
  | a :: t =>
    let count := chain_count (a :: t)
    (count, { s with atomic_head := [],
                     local_head := chain_splice (a :: t) s.local_head,
                     active_obj_cnt := sub32 s.active_obj_cnt count })

/-- pop_local on a slab that is being installed as (or already is) the
active slab: pop the local freelist head, bump active_obj_cnt, run the
constructor hook if present, and return the object.  A null local_head
would be dereferenced: modelled as ub. -/
def pop_install (g : Geom) (t : Trace) (s : Slab) : Outcome Trace :=
  match s.local_head with
  | [] => .ub
  | obj :: rest =>
    .ok { st := { t.st with
                    active := some { s with local_head := rest,
                                            active_obj_cnt := (s.active_obj_cnt + 1) % U32 },
                    live := t.st.live ++ [obj] },
          rets := t.rets ++ [obj],
          hooks := t.hooks ++ (if g.cons then [(true, obj)] else []) }

/-- The OS contract for a successful anonymous mmap of the chunk size:
non-null, page-aligned (4096), and disjoint from every live mapping. -/
def mmap_ok (g : Geom) (st : State) (b : Nat) : Bool :=
  decide (b ≠ 0) && decide (b % 4096 = 0) &&
  st.mapped_pages.all
    (fun c => decide (b + g.page_size * g.pages_per_chunk ≤ c.1) || decide (c.1 + c.2 ≤ b))

/-- fetch_global_slab: under the global lock, refill from the OS when the
global pool is empty, then take the pool head and stamp the owner.  The
source does not re-check the pool after allocate_free_slab: when an
unaligned chunk yields zero slabs it takes the list sentinel itself and
pop_local dereferences its null local_head — modelled as ub.  A failed
mmap fails the assert: abort. -/
def fetch_global_slab (g : Geom) (os : Option Nat) (t : Trace) : Outcome Trace :=
  match t.st.global_empty with
  | f :: rest =>
    pop_install g { t with st := { t.st with global_empty := rest } } { f with owner := true }
  | [] =>
    match os with
    | none => .abort
    | some b =>
      if mmap_ok g t.st b then
        let st1 := allocate_free_slab g b t.st
        match st1.global_empty with
        | [] => .ub
        | f :: rest =>
          pop_install g { t with st := { st1 with global_empty := rest } } { f with owner := true }
      else .ub

/-- Remove the (first) slab with the given base: the effect of unlink on
a slab found in that list. -/
def removeFirst : List Slab → Nat → List Slab
  | [], _ => []
  | s :: t, b => if s.base = b then t else s :: removeFirst t b

/-- The scavenge step of thread_safe_alloc: if the cooldown is positive
just decrement it; otherwise walk list_full from the tail (sentinel.prev)
for at most 64 nodes looking for a non-null atomic_head, reclaim and
install the first hit (resetting the cooldown), and arm the 64-miss
cooldown when the walk finds nothing.  Falls through to the global fetch. -/
def scavenge_phase (g : Geom) (os : Option Nat) (t : Trace) : Outcome Trace :=
  if 0 < t.st.scavenge_cooldown then
    fetch_global_slab g os
      { t with st := { t.st with scavenge_cooldown := t.st.scavenge_cooldown - 1 } }
  else
    match (t.st.list_full.reverse.take 64).find? (fun s => !s.atomic_head.isEmpty) with
    | some s =>
      pop_install g
        { t with st := { t.st with list_full := removeFirst t.st.list_full s.base,
                                   scavenge_cooldown := 0 } }
        (reclaim_remote s).2
    | none =>
      if t.st.list_full.isEmpty then fetch_global_slab g os t
      else fetch_global_slab g os { t with st := { t.st with scavenge_cooldown := 64 } }

/-- The refill path of thread_safe_alloc after the active slab is gone:
first list_empty, then list_partial, then scavenging / the global pool.
A slab sitting in list_partial with a null local_head and an empty remote
chain hits the `s->link_after(&list_full)` line, which relinks the node
without unlinking it from list_partial, corrupting both lists, and the
loop then re-reads the same node forever — modelled as ub. -/
def alloc_miss (g : Geom) (os : Option Nat) (t : Trace) : Outcome Trace :=
  match t.st.list_empty with
  | s :: rest =>
    pop_install g
      { t with st := { t.st with list_empty := rest,
                                 empty_slab_count := sub32 t.st.empty_slab_count 1 } } s
  | [] =>
    match t.st.list_part with
    | s :: rest =>
      if s.local_head.isEmpty then
        match s.atomic_head with
        | [] => .ub
        | _ :: _ =>
          pop_install g { t with st := { t.st with list_part := rest } } (reclaim_remote s).2
      else pop_install g { t with st := { t.st with list_part := rest } } s
    | [] => scavenge_phase g os t

/-- thread_safe_alloc on the owner thread.  os is the address the OS
would hand back if this call has to map a fresh chunk (none = MAP_FAILED). -/
def thread_safe_alloc (g : Geom) (os : Option Nat) (t : Trace) : Outcome Trace :=
  match t.st.active with
  | some s =>
    if s.local_head.isEmpty then
      alloc_miss g os { t with st := { t.st with active := none,
                                                 list_full := s :: t.st.list_full } }
    else pop_install g { t with st := { t.st with active := none } } s
  | none => alloc_miss g os t

/-- (addr & ~(PAGE_SIZE - 1)): the slab header address recovered from an
object pointer. -/
def slab_of_addr (g : Geom) (a : Nat) : Nat := a - a % g.page_size

inductive SlabLoc where
  | act | par | ful | emp | glob
deriving Repr, DecidableEq

/-- Locate the slab whose header sits at base b, searching the active
slot, then the three context lists, then the global pool. -/
def find_rest (st : State) (b : Nat) : Option (SlabLoc × Slab) :=
  match st.list_part.find? (fun s => s.base == b) with
  | some s => some (.par, s)
  | none =>
    match st.list_full.find? (fun s => s.base == b) with
    | some s => some (.ful, s)
    | none =>
      match st.list_empty.find? (fun s => s.base == b) with
      | some s => some (.emp, s)
      | none =>
        match st.global_empty.find? (fun s => s.base == b) with
        | some s => some (.glob, s)
        | none => none

def find_slab (st : State) (b : Nat) : Option (SlabLoc × Slab) :=
  match st.active with
  | some s => if s.base = b then some (.act, s) else find_rest st b
  | none => find_rest st b

/-- Replace the (first) slab with the given base, keeping its position:
the effect of mutating a slab in place through a pointer. -/
def updFirst : List Slab → Nat → Slab → List Slab
  | [], _, _ => []
  | s :: t, b, s1 => if s.base = b then s1 :: t else s :: updFirst t b s1

def put_back (st : State) (w : SlabLoc) (b : Nat) (s1 : Slab) : State :=
  match w with
  | .act => { st with active := some s1 }
  | .par => { st with list_part := updFirst st.list_part b s1 }
  | .ful => { st with list_full := updFirst st.list_full b s1 }
  | .emp => { st with list_empty := updFirst st.list_empty b s1 }
  | .glob => { st with global_empty := updFirst st.global_empty b s1 }

def drop_from (st : State) (w : SlabLoc) (b : Nat) : State :=
  match w with
  | .act => { st with active := none }
  | .par => { st with list_part := removeFirst st.list_part b }
  | .ful => { st with list_full := removeFirst st.list_full b }
  | .emp => { st with list_empty := removeFirst st.list_empty b }
  | .glob => { st with global_empty := removeFirst st.global_empty b }

/-- The while loop of return_slabs_to_global: move up to n slabs from the
head of list_empty to the head of global_empty, clearing the owner and
decrementing empty_slab_count each time. -/
def rsg_loop : Nat → State → State
  | 0, st => st
  | n + 1, st =>
    match st.list_empty with
    | [] => st
    | s :: rest =>
      rsg_loop n { st with list_empty := rest,
                           global_empty := { s with owner := false } :: st.global_empty,
                           empty_slab_count := sub32 st.empty_slab_count 1 }

/-- return_slabs_to_global: under the global lock, return
empty_slab_count / 2 local empty slabs to the global pool. -/
def return_slabs_to_global (st : State) : State :=
  rsg_loop (st.empty_slab_count / 2) st

/-- thread_safe_free executed by the owner thread.  The destructor hook,
if present, runs before the owner test.  Owner path: push onto
local_head, decrement active_obj_cnt; the active slab is left in place;
a count hitting obj_cnt - 1 moves the slab to list_partial, a count
hitting 0 moves it to list_empty and may trigger the hoarding control.
Non-owner slab (parked in the global pool): CAS push onto atomic_head.
Freeing an address that is not live is undefined behaviour. -/
def thread_safe_free (g : Geom) (a : Nat) (t : Trace) : Outcome Trace :=
  if a ∈ t.st.live then
    let hooks := t.hooks ++ (if g.dest then [(false, a)] else [])
    match find_slab t.st (slab_of_addr g a) with
    | none => .ub
    | some (w, s) =>
      if s.owner then
        let s1 := { s with local_head := a :: s.local_head,
                           active_obj_cnt := sub32 s.active_obj_cnt 1 }
        let st0 := { t.st with live := t.st.live.erase a }
        match w with
        | .act => .ok { st := { st0 with active := some s1 }, rets := t.rets, hooks := hooks }
        | _ =>
          if s1.active_obj_cnt = g.obj_cnt - 1 then
            let st1 := drop_from st0 w s.base
            .ok { st := { st1 with list_part := s1 :: st1.list_part },
                  rets := t.rets, hooks := hooks }
          else if s1.active_obj_cnt = 0 then
            let st1 := drop_from st0 w s.base
            let st2 := { st1 with list_empty := s1 :: st1.list_empty,
                                  empty_slab_count := (st1.empty_slab_count + 1) % U32 }
            if 32 < st2.empty_slab_count then
              .ok { st := return_slabs_to_global st2, rets := t.rets, hooks := hooks }
            else .ok { st := st2, rets := t.rets, hooks := hooks }
          else .ok { st := put_back st0 w s.base s1, rets := t.rets, hooks := hooks }
      else
        .ok { st := put_back { t.st with live := t.st.live.erase a } w s.base
                      { s with atomic_head := a :: s.atomic_head },
              rets := t.rets, hooks := hooks }
  else .ub

/-- thread_safe_free executed by a foreign thread: the destructor hook
runs, the owner test fails (the slab belongs to the modelled owner or to
nobody, never to the foreign caller), and the object is CAS-pushed onto
the slab's atomic_head. -/
def remote_free (g : Geom) (a : Nat) (t : Trace) : Outcome Trace :=
  if a ∈ t.st.live then
    let hooks := t.hooks ++ (if g.dest then [(false, a)] else [])
    match find_slab t.st (slab_of_addr g a) with
    | none => .ub
    | some (w, s) =>
      .ok { st := put_back { t.st with live := t.st.live.erase a } w s.base
                    { s with atomic_head := a :: s.atomic_head },
            rets := t.rets, hooks := hooks }
  else .ub

/-- One interleaving event: an owner allocation (with the OS reply to use
if a chunk is mapped), an owner free, or a foreign-thread free. -/
inductive Ev where
  | alloc : Option Nat → Ev
  | freeO : Nat → Ev
  | freeR : Nat → Ev
deriving Repr, DecidableEq

def step (g : Geom) (e : Ev) (t : Trace) : Outcome Trace :=
  match e with
  | .alloc os => thread_safe_alloc g os t
  | .freeO a => thread_safe_free g a t
  | .freeR a => remote_free g a t

def run (g : Geom) : Trace → List Ev → Outcome Trace
  | t, [] => .ok t
  | t, e :: es =>
    match step g e t with
    | .ok t1 => run g t1 es
    | .ub => .ub
    | .abort => .abort

def init_state : State := ⟨none, [], [], [], 0, 0, [], 0, [], []⟩

def init_trace : Trace := ⟨init_state, [], []⟩

/-- All slabs of the state, in a fixed enumeration order. -/
def allSlabs (st : State) : List Slab :=
  (match st.active with | some s => [s] | none => []) ++
    st.list_part ++ st.list_full ++ st.list_empty ++ st.global_empty

/-- Slabs currently held by the modelled thread context. -/
def ctxSlabs (st : State) : List Slab :=
  (match st.active with | some s => [s] | none => []) ++
    st.list_part ++ st.list_full ++ st.list_empty

/-- Derived geometry facts that hold for every cache the constructor can
build (proved below for mkCache on sensible sizes) and that the state
invariant needs. -/
def GeomOk (g : Geom) : Prop :=
  0 < g.obj_size ∧ 0 < g.obj_cnt ∧ 0 < g.color ∧ 0 < g.pages_per_chunk ∧
  g.color_offset = 64 ∧ 64 ∣ g.page_size ∧ 4096 ≤ g.page_size ∧
  g.obj_cnt < U32 ∧
  64 + (g.color - 1) * 64 + g.obj_cnt * g.obj_size ≤ g.page_size

instance (g : Geom) : Decidable (GeomOk g) := by unfold GeomOk; infer_instance

/-- The slab sits on a page_size boundary inside the address space and its
color index is in range. -/
def slabRegionOk (g : Geom) (s : Slab) : Prop :=
  s.base % g.page_size = 0 ∧ 0 < s.base ∧ s.color_idx < g.color

/-- Both freelist chains thread through object slots of this slab, no slot
is in a chain twice, and active_obj_cnt counts exactly the slots absent
from the local chain. -/
def slabChainsOk (g : Geom) (s : Slab) : Prop :=
  s.local_head ⊆ slotAddrs g s ∧ s.atomic_head ⊆ slotAddrs g s ∧
  (s.local_head ++ s.atomic_head).Nodup ∧
  s.active_obj_cnt + s.local_head.length = g.obj_cnt

instance (g : Geom) (s : Slab) : Decidable (slabRegionOk g s) := by
  unfold slabRegionOk; infer_instance

instance (g : Geom) (s : Slab) : Decidable (slabChainsOk g s) := by
  unfold slabChainsOk; infer_instance

/-- Number of live (allocated, not yet freed) objects whose address masks
to the given slab base. -/
def countLive (g : Geom) (live : List Nat) (b : Nat) : Nat :=
  (live.filter (fun a => slab_of_addr g a == b)).length

/-- Every slot of the slab is free (on one of the two chains) or live,
and never both. -/
def slabAccounted (g : Geom) (live : List Nat) (s : Slab) : Prop :=
  (∀ a ∈ s.local_head, a ∉ live) ∧ (∀ a ∈ s.atomic_head, a ∉ live) ∧
  s.local_head.length + s.atomic_head.length + countLive g live s.base = g.obj_cnt

instance (g : Geom) (live : List Nat) (s : Slab) : Decidable (slabAccounted g live s) := by
  unfold slabAccounted; infer_instance

/-- The slab region lies inside one of the recorded OS mappings. -/
def slabMapped (g : Geom) (pages : List (Nat × Nat)) (s : Slab) : Prop :=
  ∃ c ∈ pages, c.1 ≤ s.base ∧ s.base + g.page_size ≤ c.1 + c.2

instance (g : Geom) (pages : List (Nat × Nat)) (s : Slab) : Decidable (slabMapped g pages s) := by
  unfold slabMapped; infer_instance

/-- The state invariant maintained by every owner-thread operation and
every remote free. -/
def CacheInv (g : Geom) (st : State) : Prop :=
  (∀ s ∈ allSlabs st,
     slabRegionOk g s ∧ slabChainsOk g s ∧
       slabAccounted g st.live s ∧ slabMapped g st.mapped_pages s) ∧
  ((allSlabs st).map Slab.base).Nodup ∧
  st.live.Nodup ∧
  (∀ a ∈ st.live, ∃ s ∈ allSlabs st, a ∈ slotAddrs g s) ∧
  st.empty_slab_count = st.list_empty.length % U32 ∧
  (∀ s ∈ st.list_empty, s.active_obj_cnt = 0)

instance (g : Geom) (st : State) : Decidable (CacheInv g st) := by unfold CacheInv; infer_instance

/-- Trace invariant: the state invariant plus the guarantee that every
address ever returned is an object slot of a slab of the cache. -/
def TraceInv (g : Geom) (t : Trace) : Prop :=
  CacheInv g t.st ∧ ∀ a ∈ t.rets, ∃ s ∈ allSlabs t.st, a ∈ slotAddrs g s

instance (g : Geom) (t : Trace) : Decidable (TraceInv g t) := by
  unfold TraceInv; infer_instance

/- Extractors used to state concrete-run theorems. -/

def stateOf : Outcome Trace → State
  | .ok t => t.st
  | _ => init_state

def retsOf : Outcome Trace → List Nat
  | .ok t => t.rets
  | _ => []

def hooksOf : Outcome Trace → List (Bool × Nat)
  | .ok t => t.hooks
  | _ => []

def activeBaseOf : Outcome Trace → Option Nat
  | .ok t => t.st.active.map Slab.base
  | _ => none

/- Concrete caches and event lists used by witnesses and counterexamples. -/

/-- The cache for requested size 73: obj_size 128, slab 4096 B, 31
objects, 512 slabs per chunk, 2 colors. -/
def g73 : Geom := mkCache 73 false false

/-- The cache for requested size 262144 (256 KiB): obj_size 262144, slab
4 MiB, 15 objects, one slab per chunk, 4096 colors.  Small chunk
population keeps concrete runs small. -/
def g18 : Geom := mkCache 262144 false false

/-- Same geometry with a constructor hook and no destructor hook. -/
def g18c : Geom := mkCache 262144 true false

def allocN (n : Nat) : List Ev := List.replicate n (Ev.alloc none)

/-- 32 allocations on the size-73 cache; one 2 MiB chunk at an aligned
base.  The first 31 come from the color-1 slab at the end of the chunk,
the 32nd from the color-0 slab before it. -/
def c7evs : List Ev := Ev.alloc (some 2097152) :: allocN 31

/-- A run on g18 ending with active drained, one usable slab in
list_partial and one slab in list_empty: fill and drain three chunk
slabs, then free so that slab 1 is partial, slab 2 empty, slab 3 active
and drained. -/
def c3evs : List Ev :=
  [Ev.alloc (some 4194304)] ++ allocN 14 ++
  [Ev.alloc (some 8388608)] ++ allocN 14 ++
  [Ev.alloc (some 12582912)] ++
  [Ev.freeO 4194368] ++
  ((List.range 15).map (fun i => Ev.freeO (8388736 + i * 262144))) ++
  allocN 14

/-- Fill and drain slab 1, fill and drain slab 2 (arming the scavenge
cooldown), then remote-free one object of the still-active slab 2. -/
def c4pre : List Ev :=
  [Ev.alloc (some 4194304)] ++ allocN 14 ++
  [Ev.alloc (some 8388608)] ++ allocN 14 ++
  [Ev.freeR 9699456]

def c4evs : List Ev := c4pre ++ [Ev.alloc (some 12582912)]

/-- Drain the single chunk slab of g18, then remote-free its fourth
object, leaving a non-empty atomic_head on the active slab. -/
def c5evs : List Ev :=
  [Ev.alloc (some 4194304)] ++ allocN 14 ++ [Ev.freeR (4194368 + 3 * 262144)]

def c5st : State := stateOf (run g18 init_trace c5evs)

def c5s : Slab := ((stateOf (run g18 init_trace c5evs)).active).getD default

/-- An empty slab of g18 parked in the local empty list, fully free. -/
def c6slabE (k : Nat) : Slab :=
  { base := 4194304 * (k + 1), color_idx := 0,
    local_head := (List.range 15).map (fun i => 4194304 * (k + 1) + 64 + i * 262144),
    atomic_head := [], active_obj_cnt := 0, owner := true }

/-- A partial slab of g18 with exactly one live object (its first slot). -/
def c6X : Slab :=
  { base := 4194304 * 34, color_idx := 0,
    local_head := (List.range 14).map (fun i => 4194304 * 34 + 64 + (i + 1) * 262144),
    atomic_head := [], active_obj_cnt := 1, owner := true }

/-- A context holding 32 local empty slabs and one partial slab with one
live object: the next owner free tips empty_slab_count to 33. -/
def c6st : State :=
  { active := none, list_part := [c6X], list_full := [],
    list_empty := (List.range 32).map c6slabE,
    empty_slab_count := 32, scavenge_cooldown := 0,
    global_empty := [], color_next := 0,
    mapped_pages := (List.range 34).map (fun k => (4194304 * (k + 1), 4194304)),
    live := [4194304 * 34 + 64] }

def c6tr : Trace := ⟨c6st, [], []⟩

/-- One allocation on g18 (used by round-trip and mask witnesses). -/
def c9evs : List Ev := [Ev.alloc (some 4194304)]

def c9tr : Trace := ⟨stateOf (run g18 init_trace c9evs),
                     retsOf (run g18 init_trace c9evs),
                     hooksOf (run g18 init_trace c9evs)⟩

def c9s : Slab := (c9tr.st.active).getD default

/-- The 262144-byte cache with both a constructor and a destructor hook. -/
def g18d : Geom := mkCache 262144 true true

/-- The trace produced by one allocation on the cache with both hooks. -/
def c2ftr : Trace := ⟨stateOf (run g18d init_trace [Ev.alloc (some 4194304)]),
                      retsOf (run g18d init_trace [Ev.alloc (some 4194304)]),
                      hooksOf (run g18d init_trace [Ev.alloc (some 4194304)])⟩

/-- The trace after allocating once and freeing the returned object on the
cache with both hooks. -/
def c2ftr2 : Trace :=
  ⟨stateOf (run g18d init_trace [Ev.alloc (some 4194304), Ev.freeO 4194368]),
   retsOf (run g18d init_trace [Ev.alloc (some 4194304), Ev.freeO 4194368]),
   hooksOf (run g18d init_trace [Ev.alloc (some 4194304), Ev.freeO 4194368])⟩

/-- A context with a usable partial slab and an empty slab, active clear. -/
def c3wtr : Trace :=
  ⟨{ init_state with list_part := [c6X], list_empty := [c6slabE 0], empty_slab_count := 1 },
   [], []⟩

/-- A drained active slab with one pending remote return. -/
def c4s : Slab := { base := 4194304, color_idx := 0, local_head := [],
                    atomic_head := [4194368], active_obj_cnt := 15, owner := true }

def c4wtr : Trace := ⟨{ init_state with active := some c4s }, [], []⟩

/-- The trace produced by the 32 allocations of c7evs on the size-73 cache. -/
def c7tr : Trace := ⟨stateOf (run g73 init_trace c7evs),
                     retsOf (run g73 init_trace c7evs),
                     hooksOf (run g73 init_trace c7evs)⟩

/- ===================== helper lemmas ===================== -/

theorem log2fuel_eq (f n : Nat) (h : n ≤ f) : log2fuel f n = Nat.log2 n := by
  induction f generalizing n with
  | zero =>
    interval_cases n
    simp [log2fuel, Nat.log2]
  | succ f ih =>
    rw [log2fuel, Nat.log2]
    by_cases h2 : 2 ≤ n
    · have hlt : n / 2 ≤ f := by
        have := Nat.div_lt_self (by omega : 0 < n) (by omega : 1 < 2)
        omega
      simp [h2, ih _ hlt]
    · simp [h2]

theorem pow2ceil_eq (n : Nat) : pow2ceil n = 2 ^ (Nat.log 2 (n - 1) + 1) := by
  rw [pow2ceil, log2fuel_eq _ _ le_rfl, Nat.log2_eq_log_two]

theorem le_pow2ceil (n : Nat) : n ≤ pow2ceil n := by
  rw [pow2ceil_eq]
  have h := Nat.lt_pow_succ_log_self (b := 2) (by omega) (n - 1)
  omega

theorem pow2ceil_le (n k : Nat) (h1 : 2 ≤ n) (h2 : n ≤ 2 ^ k) : pow2ceil n ≤ 2 ^ k := by
  rw [pow2ceil_eq]
  have hlog : Nat.log 2 (n - 1) < k :=
    Nat.log_lt_of_lt_pow (by omega) (by omega)
  exact Nat.pow_le_pow_right (by omega) (by omega)

theorem sub32_exact (a b : Nat) (hb : b ≤ a) (ha : a < U32) : sub32 a b = a - b := by
  unfold sub32
  rw [Nat.mod_eq_of_lt (by omega : b < U32)]
  have h : a + (U32 - b) = (a - b) + U32 := by omega
  rw [h, Nat.add_mod_right, Nat.mod_eq_of_lt (by omega)]

theorem sub32_one_add (a : Nat) (ha : a < U32) : sub32 ((a + 1) % U32) 1 = a := by
  unfold sub32
  rw [Nat.mod_eq_of_lt (by decide : 1 < U32), Nat.mod_add_mod]
  have h : a + 1 + (U32 - 1) = a + U32 := by omega
  rw [h, Nat.add_mod_right, Nat.mod_eq_of_lt ha]

theorem mod_succ_u32 (l : Nat) : (l % U32 + 1) % U32 = (l + 1) % U32 := by
  conv_rhs => rw [← Nat.mod_add_mod]

theorem sub32_mod_pred (l : Nat) (h : 1 ≤ l) : sub32 (l % U32) 1 = (l - 1) % U32 := by
  unfold sub32
  rw [Nat.mod_eq_of_lt (by decide : 1 < U32), Nat.mod_add_mod]
  have heq : l + (U32 - 1) = (l - 1) + U32 := by
    have : (0 : Nat) < U32 := by decide
    omega
  rw [heq, Nat.add_mod_right]

theorem align_up_ge (x a : Nat) (ha : 0 < a) : x ≤ align_up x a := by
  unfold align_up
  have h2 : (x + a - 1) % a ≤ a - 1 := by
    have := Nat.mod_lt (x + a - 1) ha; omega
  omega

theorem align_up_mod (x a : Nat) (ha : 0 < a) : align_up x a % a = 0 := by
  unfold align_up
  have hd := Nat.div_add_mod (x + a - 1) a
  have h : x + a - 1 - (x + a - 1) % a = a * ((x + a - 1) / a) := by omega
  rw [h]
  simp [Nat.mul_mod_right]

theorem align_up_lt (x a : Nat) (ha : 0 < a) : align_up x a < x + a := by
  unfold align_up
  omega

theorem align_up_64 (b : Nat) (h : 64 ∣ b) : align_up (b + 56) 64 = b + 64 := by
  obtain ⟨m, rfl⟩ := h
  unfold align_up
  have h1 : 64 * m + 56 + 64 - 1 = 64 * m + 119 := by omega
  rw [h1]
  have h2 : (64 * m + 119) % 64 = 55 := by
    rw [Nat.add_comm, Nat.add_mul_mod_self_left]
  omega

theorem chain_count_eq (l : List Nat) : chain_count l = l.length := by
  induction l with
  | nil => rfl
  | cons a t ih => simp [chain_count, ih]

theorem chain_splice_eq (l1 l2 : List Nat) : chain_splice l1 l2 = l1 ++ l2 := by
  induction l1 with
  | nil => rfl
  | cons a t ih =>
    cases t with
    | nil => rfl
    | cons b tt => simp [chain_splice] at ih ⊢; exact ih

theorem reclaim_remote_spec (s : Slab) (h : s.atomic_head ≠ []) :
    reclaim_remote s =
      (s.atomic_head.length,
       { s with atomic_head := [],
                local_head := s.atomic_head ++ s.local_head,
                active_obj_cnt := sub32 s.active_obj_cnt s.atomic_head.length }) := by
  unfold reclaim_remote
  cases hh : s.atomic_head with
  | nil => exact absurd hh h
  | cons a t => simp [chain_count_eq, chain_splice_eq, ← hh]

theorem slotAddrs_length (g : Geom) (s : Slab) : (slotAddrs g s).length = g.obj_cnt := by
  simp [slotAddrs]

theorem mem_slotAddrs (g : Geom) (s : Slab) (a : Nat) :
    a ∈ slotAddrs g s ↔ ∃ i, i < g.obj_cnt ∧ a = s.memAddr g + i * g.obj_size := by
  simp [slotAddrs, eq_comm]

theorem slotAddrs_nodup (g : Geom) (s : Slab) (h : 0 < g.obj_size) :
    (slotAddrs g s).Nodup := by
  unfold slotAddrs
  refine List.Nodup.map ?_ (List.nodup_range _)
  intro i j hij
  exact Nat.eq_of_mul_eq_mul_right h (Nat.add_left_cancel hij)

theorem init_slab_local (g : Geom) (b c : Nat) :
    (init_slab g b c).local_head = slotAddrs g (init_slab g b c) := rfl

theorem slab_memAddr_eq (g : Geom) (s : Slab)
    (hg : GeomOk g) (hr : slabRegionOk g s) :
    s.memAddr g = s.base + 64 + s.color_idx * 64 := by
  obtain ⟨hsz, hcnt, hcol, hppc, hoff, hdvd, hps, hcu, hrange⟩ := hg
  obtain ⟨hb, hb0, hci⟩ := hr
  have h64b : 64 ∣ s.base := dvd_trans hdvd (Nat.dvd_of_mod_eq_zero hb)
  rw [Slab.memAddr, align_up_64 s.base h64b, hoff]

/-- Every slot of a well-placed slab lies inside the slab's page_size
region, above the metadata, and masks back to the slab base. -/
theorem slot_in_range (g : Geom) (s : Slab) (a : Nat)
    (hg : GeomOk g) (hr : slabRegionOk g s) (ha : a ∈ slotAddrs g s) :
    s.base + 64 ≤ a ∧ a + g.obj_size ≤ s.base + g.page_size ∧
      slab_of_addr g a = s.base := by
  obtain ⟨i, hi, rfl⟩ := (mem_slotAddrs g s a).mp ha
  have hmem := slab_memAddr_eq g s hg hr
  obtain ⟨hsz, hcnt, hcol, hppc, hoff, hdvd, hps, hcu, hrange⟩ := hg
  obtain ⟨hb, hb0, hci⟩ := hr
  have hoffle : 64 + s.color_idx * 64 + i * g.obj_size + g.obj_size ≤ g.page_size := by
    have h1 : s.color_idx * 64 ≤ (g.color - 1) * 64 :=
      Nat.mul_le_mul_right 64 (by omega)
    have h2 : i * g.obj_size + g.obj_size ≤ g.obj_cnt * g.obj_size := by
      have h3 : (i + 1) * g.obj_size ≤ g.obj_cnt * g.obj_size :=
        Nat.mul_le_mul_right _ (by omega)
      calc i * g.obj_size + g.obj_size = (i + 1) * g.obj_size := by ring
        _ ≤ g.obj_cnt * g.obj_size := h3
    omega
  refine ⟨by omega, by omega, ?_⟩
  unfold slab_of_addr
  have heq : s.memAddr g + i * g.obj_size =
      s.base + (64 + s.color_idx * 64 + i * g.obj_size) := by omega
  have hofflt : 64 + s.color_idx * 64 + i * g.obj_size < g.page_size := by omega
  have hmod : (s.memAddr g + i * g.obj_size) % g.page_size =
      64 + s.color_idx * 64 + i * g.obj_size := by
    rw [heq, Nat.add_mod, hb, Nat.zero_add, Nat.mod_mod_of_dvd _ dvd_rfl,
        Nat.mod_eq_of_lt hofflt]
  omega

/-- Slots of slabs with 64-divisible object size are 64-byte aligned. -/
theorem slot_mod64 (g : Geom) (s : Slab) (a : Nat)
    (hg : GeomOk g) (hr : slabRegionOk g s) (hdv : 64 ∣ g.obj_size)
    (ha : a ∈ slotAddrs g s) : a % 64 = 0 := by
  obtain ⟨i, hi, rfl⟩ := (mem_slotAddrs g s a).mp ha
  have hmem := slab_memAddr_eq g s hg hr
  obtain ⟨hsz, hcnt, hcol, hppc, hoff, hdvd, hps, hcu, hrange⟩ := hg
  obtain ⟨hb, hb0, hci⟩ := hr
  have h64b : 64 ∣ s.base := dvd_trans hdvd (Nat.dvd_of_mod_eq_zero hb)
  obtain ⟨m, hm⟩ := h64b
  obtain ⟨q, hq⟩ := hdv
  rw [hmem, hm, hq]
  have heq : 64 * m + 64 + s.color_idx * 64 + i * (64 * q) =
      64 * (m + 1 + s.color_idx + i * q) := by ring
  rw [heq, Nat.mul_mod_right]

/-- Two distinct slots (of the same or of different well-placed slabs with
distinct bases) are at least obj_size apart. -/
theorem slot_separation (g : Geom) (s1 s2 : Slab) (a b : Nat)
    (hg : GeomOk g) (hr1 : slabRegionOk g s1) (hr2 : slabRegionOk g s2)
    (hbase : s1.base = s2.base → s1.color_idx = s2.color_idx)
    (ha : a ∈ slotAddrs g s1) (hb : b ∈ slotAddrs g s2) (hne : a ≠ b) :
    g.obj_size ≤ Nat.dist a b := by
  have hin1 := slot_in_range g s1 a hg hr1 ha
  have hin2 := slot_in_range g s2 b hg hr2 hb
  rcases eq_or_ne s1.base s2.base with hbb | hbb
  · -- same slab base: slots differ by a multiple of obj_size
    obtain ⟨i, hi, rfl⟩ := (mem_slotAddrs g s1 a).mp ha
    obtain ⟨j, hj, rfl⟩ := (mem_slotAddrs g s2 b).mp hb
    have hmm : s1.memAddr g = s2.memAddr g := by
      rw [slab_memAddr_eq g s1 hg hr1, slab_memAddr_eq g s2 hg hr2, hbb, hbase hbb]
    rw [hmm] at hne ⊢
    have hij : i ≠ j := by
      intro h; exact hne (by rw [h])
    obtain ⟨hsz, _⟩ := hg
    rcases Nat.lt_or_ge i j with h | h
    · have : i * g.obj_size + g.obj_size ≤ j * g.obj_size := by
        calc i * g.obj_size + g.obj_size = (i + 1) * g.obj_size := by ring
          _ ≤ j * g.obj_size := Nat.mul_le_mul_right _ (by omega)
      simp [Nat.dist]; omega
    · have h2 : i ≠ j := hij
      have : j * g.obj_size + g.obj_size ≤ i * g.obj_size := by
        calc j * g.obj_size + g.obj_size = (j + 1) * g.obj_size := by ring
          _ ≤ i * g.obj_size := Nat.mul_le_mul_right _ (by omega)
      simp [Nat.dist]; omega
  · -- different slabs: the page_size regions are disjoint
    have hps : 0 < g.page_size := by obtain ⟨_, _, _, _, _, _, h, _⟩ := hg; omega
    have hd1 : s1.base % g.page_size = 0 := hr1.1
    have hd2 : s2.base % g.page_size = 0 := hr2.1
    have hsep : s1.base + g.page_size ≤ s2.base ∨ s2.base + g.page_size ≤ s1.base := by
      obtain ⟨m1, hm1⟩ := Nat.dvd_of_mod_eq_zero hd1
      obtain ⟨m2, hm2⟩ := Nat.dvd_of_mod_eq_zero hd2
      have hmm : m1 ≠ m2 := by
        intro h; apply hbb; rw [hm1, hm2, h]
      rcases Nat.lt_or_ge m1 m2 with h | h
      · left; rw [hm1, hm2]
        calc g.page_size * m1 + g.page_size = g.page_size * (m1 + 1) := by ring
          _ ≤ g.page_size * m2 := Nat.mul_le_mul_left _ (by omega)
      · right; rw [hm1, hm2]
        calc g.page_size * m2 + g.page_size = g.page_size * (m2 + 1) := by ring
          _ ≤ g.page_size * m1 := Nat.mul_le_mul_left _ (by omega)
    simp [Nat.dist]
    rcases hsep with h | h
    · omega
    · omega

/- list helper lemmas -/

theorem removeFirst_subset (l : List Slab) (b : Nat) :
    ∀ x ∈ removeFirst l b, x ∈ l := by
  induction l with
  | nil => simp [removeFirst]
  | cons s t ih =>
    intro x hx
    by_cases hs : s.base = b
    · simp [removeFirst, hs] at hx
      exact List.mem_cons_of_mem _ hx
    · simp [removeFirst, hs] at hx
      rcases hx with rfl | hx
      · exact List.mem_cons_self _ _
      · exact List.mem_cons_of_mem _ (ih x hx)

theorem removeFirst_perm (l : List Slab) (b : Nat) (s : Slab)
    (hmem : s ∈ l) (hb : s.base = b) (hnd : (l.map Slab.base).Nodup) :
    l.Perm (s :: removeFirst l b) := by
  induction l with
  | nil => cases hmem
  | cons x t ih =>
    rcases List.mem_cons.mp hmem with rfl | hmem
    · simp [removeFirst, hb]
    · simp [List.nodup_cons] at hnd
      have hx : x.base ≠ b := fun hxb => hnd.1 s hmem (by rw [hb, hxb])
      simp [removeFirst, hx]
      have ht : t.Perm (s :: removeFirst t b) := ih hmem hnd.2
      exact (ht.cons x).trans (List.Perm.swap s x _)

theorem updFirst_map_base (l : List Slab) (b : Nat) (s1 : Slab) (h : s1.base = b) :
    (updFirst l b s1).map Slab.base = l.map Slab.base := by
  induction l with
  | nil => rfl
  | cons x t ih =>
    by_cases hx : x.base = b
    · simp [updFirst, hx, h]
    · simp [updFirst, hx, ih]

theorem updFirst_length (l : List Slab) (b : Nat) (s1 : Slab) :
    (updFirst l b s1).length = l.length := by
  induction l with
  | nil => rfl
  | cons x t ih =>
    by_cases hx : x.base = b
    · simp [updFirst, hx]
    · simp [updFirst, hx, ih]

theorem mem_updFirst (l : List Slab) (b : Nat) (s1 : Slab) :
    ∀ x ∈ updFirst l b s1, x = s1 ∨ x ∈ l := by
  induction l with
  | nil => simp [updFirst]
  | cons y t ih =>
    intro x hx
    by_cases hy : y.base = b
    · simp [updFirst, hy] at hx
      rcases hx with rfl | hx
      · exact Or.inl rfl
      · exact Or.inr (List.mem_cons_of_mem _ hx)
    · simp [updFirst, hy] at hx
      rcases hx with rfl | hx
      · exact Or.inr (List.mem_cons_self _ _)
      · rcases ih x hx with h | h
        · exact Or.inl h
        · exact Or.inr (List.mem_cons_of_mem _ h)

theorem updFirst_perm (l : List Slab) (b : Nat) (s s1 : Slab)
    (hmem : s ∈ l) (hb : s.base = b) (hnd : (l.map Slab.base).Nodup) :
    (updFirst l b s1).Perm (s1 :: removeFirst l b) := by
  induction l with
  | nil => cases hmem
  | cons x t ih =>
    rcases List.mem_cons.mp hmem with rfl | hmem
    · simp [updFirst, removeFirst, hb]
    · simp [List.nodup_cons] at hnd
      have hx : x.base ≠ b := fun hxb => hnd.1 s hmem (by rw [hb, hxb])
      simp [updFirst, removeFirst, hx]
      have ht : (updFirst t b s1).Perm (s1 :: removeFirst t b) := ih hmem hnd.2
      exact (ht.cons x).trans (List.Perm.swap s1 x _)

theorem countLive_perm (g : Geom) (l1 l2 : List Nat) (b : Nat) (h : l1.Perm l2) :
    countLive g l1 b = countLive g l2 b := by
  unfold countLive
  exact (h.filter _).length_eq

theorem countLive_append (g : Geom) (l1 l2 : List Nat) (b : Nat) :
    countLive g (l1 ++ l2) b = countLive g l1 b + countLive g l2 b := by
  unfold countLive
  simp [List.filter_append]

theorem countLive_single (g : Geom) (a b : Nat) :
    countLive g [a] b = if slab_of_addr g a = b then 1 else 0 := by
  unfold countLive
  rw [List.filter_singleton]
  by_cases h : slab_of_addr g a = b
  · simp [h]
  · rw [beq_eq_false_iff_ne.mpr h]
    simp [h]

theorem countLive_cons_erase (g : Geom) (l : List Nat) (a b : Nat) (hmem : a ∈ l) :
    countLive g l b = countLive g [a] b + countLive g (l.erase a) b := by
  have hperm := List.perm_cons_erase hmem
  rw [countLive_perm g l (a :: l.erase a) b hperm]
  have : a :: l.erase a = [a] ++ l.erase a := rfl
  rw [this, countLive_append]

theorem countLive_eq_zero (g : Geom) (l : List Nat) (b : Nat)
    (h : ∀ a ∈ l, slab_of_addr g a ≠ b) : countLive g l b = 0 := by
  unfold countLive
  rw [List.filter_eq_nil_iff.mpr]
  · rfl
  · intro a ha
    simp [h a ha]

theorem countLive_pos (g : Geom) (l : List Nat) (a b : Nat)
    (hmem : a ∈ l) (hb : slab_of_addr g a = b) : 1 ≤ countLive g l b := by
  rw [countLive_cons_erase g l a b hmem, countLive_single]
  simp [hb]

theorem erase_append_singleton (l : List Nat) (a : Nat) (h : a ∉ l) :
    (l ++ [a]).erase a = l := by
  rw [List.erase_append_right _ h]
  simp

theorem mkCache_eq (r : Nat) (c d : Bool) (hru : r < U32)
    (hsmall : pow2ceil (max r 16) * 8 + 64 < U32) :
    mkCache r c d =
      (let os := pow2ceil (max r 16)
       let ps := if pow2ceil (os * 8 + 64) < 4096 then 4096 else pow2ceil (os * 8 + 64)
       ⟨os, (ps - 64) / os, ps,
        if 2097152 / ps = 0 then 1 else 2097152 / ps,
        (ps - (64 + (ps - 64) / os * os)) / 64 + 1, 64, c, d⟩ : Geom) := by
  have h8 : ¬ (max r 16 < 8) := by
    have := Nat.le_max_right r 16; omega
  have ha : align_up 56 64 = 64 := by decide
  unfold mkCache
  rw [Nat.mod_eq_of_lt hru, ha]
  simp only [h8, if_false]
  rw [Nat.mod_eq_of_lt hsmall]

theorem GeomOk_mk (os cnt ps ppc col : Nat) (c d : Bool)
    (h1 : 0 < os) (h2 : 0 < cnt) (h3 : 0 < col) (h4 : 0 < ppc)
    (h5 : 64 ∣ ps) (h6 : 4096 ≤ ps) (h7 : cnt < U32)
    (h8 : 64 + (col - 1) * 64 + cnt * os ≤ ps) :
    GeomOk ⟨os, cnt, ps, ppc, col, 64, c, d⟩ :=
  ⟨h1, h2, h3, h4, rfl, h5, h6, h7, h8⟩

theorem mkCache_ok (r : Nat) (c d : Bool) (h1 : 0 < r) (h2 : r ≤ 67108864) :
    GeomOk (mkCache r c d) := by
  have hru : r < U32 := by unfold U32; omega
  have hm16 : 16 ≤ max r 16 := le_max_right r 16
  have hosl : max r 16 ≤ pow2ceil (max r 16) := le_pow2ceil _
  have hosu : pow2ceil (max r 16) ≤ 67108864 := by
    have h := pow2ceil_le (max r 16) 26 (by omega) (by norm_num; omega)
    norm_num at h
    exact h
  have hsmall : pow2ceil (max r 16) * 8 + 64 < U32 := by unfold U32; omega
  rw [mkCache_eq r c d hru hsmall]
  set os := pow2ceil (max r 16) with hos
  set req := os * 8 + 64 with hreq
  have hreql : req ≤ pow2ceil req := le_pow2ceil _
  have hrequ : pow2ceil req ≤ 2 ^ 30 := by
    apply pow2ceil_le req 30 (by omega)
    norm_num
    omega
  obtain ⟨k, hk⟩ : ∃ k, pow2ceil req = 2 ^ k :=
    ⟨Nat.log 2 (req - 1) + 1, pow2ceil_eq req⟩
  have hk8 : 8 ≤ k := by
    by_contra hcon
    have hle : (2 : Nat) ^ k ≤ 2 ^ 7 := Nat.pow_le_pow_right (by omega) (by omega)
    have h7 : pow2ceil req ≤ 128 := by
      rw [hk]; exact le_trans hle (by norm_num)
    omega
  set ps := if pow2ceil req < 4096 then 4096 else pow2ceil req with hps
  have hdvd : 64 ∣ ps := by
    by_cases hc : pow2ceil req < 4096
    · have h : ps = 4096 := by rw [hps, if_pos hc]
      rw [h]; decide
    · have h : ps = 2 ^ k := by rw [hps, if_neg hc, hk]
      rw [h]
      have h64 : (64 : Nat) = 2 ^ 6 := by norm_num
      rw [h64]
      exact pow_dvd_pow 2 (by omega)
  have h4096 : 4096 ≤ ps := by
    by_cases hc : pow2ceil req < 4096
    · rw [hps, if_pos hc]
    · rw [hps, if_neg hc]; omega
  have hreqps : req ≤ ps := by
    by_cases hc : pow2ceil req < 4096
    · rw [hps, if_pos hc]; omega
    · rw [hps, if_neg hc]; omega
  have hpsle : ps ≤ 2 ^ 30 := by
    by_cases hc : pow2ceil req < 4096
    · rw [hps, if_pos hc]; norm_num
    · rw [hps, if_neg hc]; omega
  have hos0 : 0 < os := by omega
  have hcnt8 : 8 ≤ (ps - 64) / os := by
    rw [Nat.le_div_iff_mul_le hos0]
    omega
  have hcntmul : (ps - 64) / os * os ≤ ps - 64 := Nat.div_mul_le_self _ _
  have hcntle : (ps - 64) / os ≤ ps := le_trans (Nat.div_le_self _ _) (by omega)
  have hppc : 0 < (if 2097152 / ps = 0 then 1 else 2097152 / ps) := by
    by_cases hc : 2097152 / ps = 0
    · rw [if_pos hc]; omega
    · rw [if_neg hc]; exact Nat.pos_of_ne_zero hc
  have hcu : (ps - 64) / os < U32 := by
    have h30 : (2 : Nat) ^ 30 < U32 := by norm_num [U32]
    omega
  have hcolor : 64 + ((ps - (64 + (ps - 64) / os * os)) / 64 + 1 - 1) * 64 +
      (ps - 64) / os * os ≤ ps := by
    have hsl : (ps - (64 + (ps - 64) / os * os)) / 64 * 64 ≤
        ps - (64 + (ps - 64) / os * os) := Nat.div_mul_le_self _ _
    omega
  exact GeomOk_mk _ _ _ _ _ c d hos0
    (Nat.lt_of_lt_of_le (by norm_num) hcnt8) (Nat.succ_pos _) hppc hdvd h4096 hcu hcolor

/- state decomposition lemmas -/

theorem allSlabs_active_some (st : State) (s : Slab) (h : st.active = some s) :
    allSlabs st = s :: (st.list_part ++ st.list_full ++ st.list_empty ++ st.global_empty) := by
  simp [allSlabs, h]

theorem allSlabs_active_none (st : State) (h : st.active = none) :
    allSlabs st = st.list_part ++ st.list_full ++ st.list_empty ++ st.global_empty := by
  simp [allSlabs, h]

/-- Record updates that do not touch base or color_idx keep the slot set. -/
theorem slotAddrs_update (g : Geom) (s : Slab) (lh ah : List Nat) (n : Nat) (ow : Bool) :
    slotAddrs g { s with local_head := lh, atomic_head := ah,
                         active_obj_cnt := n, owner := ow } = slotAddrs g s := rfl

/-- pop_install, fed a slab satisfying the invariant as the incoming
active slab, yields an invariant trace whose last returned address is a
slot of that slab. -/
theorem pop_install_inv (g : Geom) (t : Trace) (s : Slab)
    (hg : GeomOk g)
    (hinv : CacheInv g { t.st with active := some s })
    (hrets : ∀ a ∈ t.rets, ∃ x ∈ allSlabs { t.st with active := some s }, a ∈ slotAddrs g x) :
    ∀ t1, pop_install g t s = .ok t1 → TraceInv g t1 ∧
      ∃ o, t1.rets = t.rets ++ [o] ∧ o ∈ slotAddrs g s := by
  intro t1 ht1
  cases hl : s.local_head with
  | nil => rw [pop_install, hl] at ht1; cases ht1
  | cons o rest =>
    rw [pop_install, hl] at ht1
    injection ht1 with ht1
    subst ht1
    obtain ⟨hall, hnd, hld, hls, hec, hez⟩ := hinv
    set R := t.st.list_part ++ t.st.list_full ++ t.st.list_empty ++ t.st.global_empty with hR
    have hPlus : allSlabs { t.st with active := some s } = s :: R := by
      simp [allSlabs, hR]
    set s1 : Slab := { s with local_head := rest,
                              active_obj_cnt := (s.active_obj_cnt + 1) % U32 } with hs1
    have hPost : allSlabs { t.st with
        active := some s1, live := t.st.live ++ [o] } = s1 :: R := by
      simp [allSlabs, hR]
    have hallP : ∀ x ∈ s :: R, slabRegionOk g x ∧ slabChainsOk g x ∧
        slabAccounted g t.st.live x ∧ slabMapped g t.st.mapped_pages x :=
      fun x hx => hall x (by rw [hPlus]; exact hx)
    have hlsP : ∀ a ∈ t.st.live, ∃ x ∈ s :: R, a ∈ slotAddrs g x := by
      rw [hPlus] at hls; exact hls
    have hldP : t.st.live.Nodup := hld
    have hecP : t.st.empty_slab_count = t.st.list_empty.length % U32 := hec
    have hezP : ∀ x ∈ t.st.list_empty, x.active_obj_cnt = 0 := hez
    obtain ⟨hreg, hch, hacc, hmap⟩ := hallP s (List.mem_cons_self _ _)
    have hos : o ∈ slotAddrs g s := hch.1 (by rw [hl]; exact List.mem_cons_self _ _)
    have hmask : slab_of_addr g o = s.base := (slot_in_range g s o hg hreg hos).2.2
    have honl : o ∉ t.st.live := hacc.1 o (by rw [hl]; exact List.mem_cons_self _ _)
    have hslots1 : slotAddrs g s1 = slotAddrs g s := rfl
    have hbase1 : s1.base = s.base := rfl
    -- bases of other slabs differ from s.base
    have hRnd : ∀ x ∈ R, x.base ≠ s.base := by
      intro x hx hxe
      rw [hPlus] at hnd
      simp [List.nodup_cons] at hnd
      exact hnd.1 x hx hxe
    have hfree_ne_o : ∀ x ∈ R, ∀ a, a ∈ x.local_head ++ x.atomic_head → a ≠ o := by
      intro x hx a ha hao
      obtain ⟨hreg2, hch2, _, _⟩ := hallP x (List.mem_cons_of_mem _ hx)
      have has : a ∈ slotAddrs g x := by
        rcases List.mem_append.mp ha with h | h
        · exact hch2.1 h
        · exact hch2.2.1 h
      have hmx := (slot_in_range g x a hg hreg2 has).2.2
      rw [hao, hmask] at hmx
      exact hRnd x hx hmx.symm
    have hCs : s.active_obj_cnt + (o :: rest).length = g.obj_cnt := by
      rw [← hl]; exact hch.2.2.2
    have hcnt_lt : s.active_obj_cnt + 1 < U32 := by
      obtain ⟨_, _, _, _, _, _, _, hcu, _⟩ := hg
      simp [List.length_cons] at hCs
      omega
    constructor
    · refine ⟨⟨?_, ?_, ?_, ?_, ?_, ?_⟩, ?_⟩
      · -- per-slab conjuncts
        intro x hx
        rw [hPost] at hx
        rcases List.mem_cons.mp hx with rfl | hx
        · refine ⟨hreg, ⟨?_, ?_, ?_, ?_⟩, ⟨?_, ?_, ?_⟩, hmap⟩
          · rw [hslots1]
            intro a ha
            exact hch.1 (by rw [hl]; exact List.mem_cons_of_mem _ ha)
          · rw [hslots1]; exact hch.2.1
          · have : (s.local_head ++ s.atomic_head).Nodup := hch.2.2.1
            rw [hl] at this
            exact (List.nodup_cons.mp this).2
          · show (s.active_obj_cnt + 1) % U32 + rest.length = g.obj_cnt
            rw [Nat.mod_eq_of_lt hcnt_lt]
            simp [List.length_cons] at hCs
            omega
          · intro a ha hlive
            rcases List.mem_append.mp hlive with h | h
            · exact hacc.1 a (by rw [hl]; exact List.mem_cons_of_mem _ ha) h
            · have hao : a = o := by simpa using h
              subst hao
              have : (s.local_head ++ s.atomic_head).Nodup := hch.2.2.1
              rw [hl] at this
              exact (List.nodup_cons.mp this).1 (List.mem_append.mpr (Or.inl ha))
          · intro a ha hlive
            rcases List.mem_append.mp hlive with h | h
            · exact hacc.2.1 a ha h
            · have hao : a = o := by simpa using h
              subst hao
              have : (s.local_head ++ s.atomic_head).Nodup := hch.2.2.1
              rw [hl] at this
              exact (List.nodup_cons.mp this).1 (List.mem_append.mpr (Or.inr ha))
          · show rest.length + s.atomic_head.length +
                countLive g (t.st.live ++ [o]) s1.base = g.obj_cnt
            have hbb : s1.base = s.base := rfl
            rw [countLive_append, countLive_single, hbb, if_pos hmask]
            have hC := hacc.2.2
            rw [hl] at hC
            simp [List.length_cons] at hC
            omega
        · obtain ⟨hreg2, hch2, hacc2, hmap2⟩ := hallP x (List.mem_cons_of_mem _ hx)
          refine ⟨hreg2, hch2, ⟨?_, ?_, ?_⟩, hmap2⟩
          · intro a ha hlive
            rcases List.mem_append.mp hlive with h | h
            · exact hacc2.1 a ha h
            · have hao : a = o := by simpa using h
              exact hfree_ne_o x hx a (List.mem_append.mpr (Or.inl ha)) hao
          · intro a ha hlive
            rcases List.mem_append.mp hlive with h | h
            · exact hacc2.2.1 a ha h
            · have hao : a = o := by simpa using h
              exact hfree_ne_o x hx a (List.mem_append.mpr (Or.inr ha)) hao
          · show x.local_head.length + x.atomic_head.length +
                countLive g (t.st.live ++ [o]) x.base = g.obj_cnt
            have hC := hacc2.2.2
            rw [countLive_append, countLive_single]
            have hno : ¬ (slab_of_addr g o = x.base) := by
              rw [hmask]; intro h; exact hRnd x hx h.symm
            rw [if_neg hno]
            omega
      · rw [hPost]
        have : (s1 :: R).map Slab.base = (s :: R).map Slab.base := by
          simp [hbase1]
        rw [this, ← hPlus]
        exact hnd
      · simp only []
        rw [List.nodup_append]
        refine ⟨hld, List.nodup_singleton o, ?_⟩
        intro a ha hao
        have : a = o := by simpa using hao
        subst this
        exact honl ha
      · intro a ha
        have ha2 : a ∈ t.st.live ++ [o] := ha
        rcases List.mem_append.mp ha2 with h | h
        · obtain ⟨x, hx, hax⟩ := hlsP a h
          rcases List.mem_cons.mp hx with rfl | hx
          · exact ⟨s1, by rw [hPost]; exact List.mem_cons_self _ _, by rw [hslots1]; exact hax⟩
          · exact ⟨x, by rw [hPost]; exact List.mem_cons_of_mem _ hx, hax⟩
        · have hao : a = o := by simpa using h
          subst hao
          exact ⟨s1, by rw [hPost]; exact List.mem_cons_self _ _, by rw [hslots1]; exact hos⟩
      · exact hecP
      · exact hezP
      · intro a ha
        have ha2 : a ∈ t.rets ++ [o] := ha
        rcases List.mem_append.mp ha2 with h | h
        · obtain ⟨x, hx, hax⟩ := hrets a h
          rw [hPlus] at hx
          rcases List.mem_cons.mp hx with rfl | hx
          · exact ⟨s1, by rw [hPost]; exact List.mem_cons_self _ _, by rw [hslots1]; exact hax⟩
          · exact ⟨x, by rw [hPost]; exact List.mem_cons_of_mem _ hx, hax⟩
        · have hao : a = o := by simpa using h
          subst hao
          exact ⟨s1, by rw [hPost]; exact List.mem_cons_self _ _, by rw [hslots1]; exact hos⟩
    · exact ⟨o, rfl, hos⟩

/-- Invariant transfer along a permutation of the slab collection,
with the list_empty-specific conjuncts supplied by the caller. -/
theorem cacheInv_transfer (g : Geom) (st st' : State)
    (hperm : (allSlabs st').Perm (allSlabs st))
    (hlive : st'.live = st.live) (hmap : st'.mapped_pages = st.mapped_pages)
    (hec' : st'.empty_slab_count = st'.list_empty.length % U32)
    (hez' : ∀ x ∈ st'.list_empty, x.active_obj_cnt = 0)
    (hinv : CacheInv g st) : CacheInv g st' := by
  obtain ⟨hall, hnd, hld, hls, hec0, hez⟩ := hinv
  refine ⟨?_, ?_, ?_, ?_, hec', hez'⟩
  · intro x hx
    rw [hlive, hmap]
    exact hall x (hperm.subset hx)
  · exact ((hperm.map Slab.base).nodup_iff).mpr hnd
  · rw [hlive]; exact hld
  · rw [hlive]
    intro a ha
    obtain ⟨x, hx, hax⟩ := hls a ha
    exact ⟨x, hperm.mem_iff.mpr hx, hax⟩

/-- Invariant transfer when one slab is replaced by an updated slab with
the same base and slot set, the rest of the collection being permuted. -/
theorem cacheInv_replace (g : Geom) (st st' : State) (s s1 : Slab) (L : List Slab)
    (hp : (allSlabs st).Perm (s :: L)) (hp' : (allSlabs st').Perm (s1 :: L))
    (hb : s1.base = s.base)
    (hlive : st'.live = st.live) (hmap : st'.mapped_pages = st.mapped_pages)
    (hreg1 : slabRegionOk g s1) (hch1 : slabChainsOk g s1)
    (hacc1 : slabAccounted g st.live s1) (hmap1 : slabMapped g st.mapped_pages s1)
    (hslots : slotAddrs g s1 = slotAddrs g s)
    (hec' : st'.empty_slab_count = st'.list_empty.length % U32)
    (hez' : ∀ x ∈ st'.list_empty, x.active_obj_cnt = 0)
    (hinv : CacheInv g st) : CacheInv g st' := by
  obtain ⟨hall, hnd, hld, hls, hec0, hez⟩ := hinv
  refine ⟨?_, ?_, ?_, ?_, hec', hez'⟩
  · intro x hx
    rcases List.mem_cons.mp (hp'.subset hx) with rfl | hxL
    · rw [hlive, hmap]
      exact ⟨hreg1, hch1, hacc1, hmap1⟩
    · rw [hlive, hmap]
      exact hall x (hp.mem_iff.mpr (List.mem_cons_of_mem _ hxL))
  · have h1 := hp'.map Slab.base
    have h2 := hp.map Slab.base
    apply h1.nodup_iff.mpr
    have := h2.nodup_iff.mp hnd
    simpa [hb] using this
  · rw [hlive]; exact hld
  · rw [hlive]
    intro a ha
    obtain ⟨x, hx, hax⟩ := hls a ha
    rcases List.mem_cons.mp (hp.subset hx) with rfl | hxL
    · exact ⟨s1, hp'.mem_iff.mpr (List.mem_cons_self _ _), by rw [hslots]; exact hax⟩
    · exact ⟨x, hp'.mem_iff.mpr (List.mem_cons_of_mem _ hxL), hax⟩

theorem perm_pull_middle (l1 fr l2 : List Slab) :
    (l1 ++ (fr ++ l2)).Perm (fr ++ (l1 ++ l2)) := by
  have h1 : l1 ++ (fr ++ l2) = (l1 ++ fr) ++ l2 := by rw [List.append_assoc]
  have h2 : fr ++ (l1 ++ l2) = (fr ++ l1) ++ l2 := by rw [List.append_assoc]
  rw [h1, h2]
  exact (List.perm_append_comm).append_right l2

theorem allocate_free_slab_inv (g : Geom) (b : Nat) (st : State)
    (hg : GeomOk g) (hmm : mmap_ok g st b = true) (hinv : CacheInv g st) :
    CacheInv g (allocate_free_slab g b st) := by
  obtain ⟨hall, hnd, hld, hls, hec0, hez⟩ := hinv
  have hgg := hg
  obtain ⟨hsz, hcnt, hcol, hppc, hoff, hdvd, hps, hcu, hrange⟩ := hgg
  simp only [mmap_ok, Bool.and_eq_true, Bool.or_eq_true, decide_eq_true_eq,
    List.all_eq_true] at hmm
  obtain ⟨⟨hb0, hb4096⟩, hdisj⟩ := hmm
  set P := g.page_size with hP
  have hP0 : 0 < P := by omega
  set memLoc := if b % P = 0 then b else align_up b P with hml
  set n := g.pages_per_chunk - (if b % P = 0 then 0 else 1) with hn
  set cidx := fun i => ((st.color_next + i) % U32) % g.color with hcidx
  set fresh := (List.range n).map (fun i => init_slab g (memLoc + P * i) (cidx i)) with hfresh
  have hml_mod : memLoc % P = 0 := by
    by_cases hc : b % P = 0
    · rw [hml, if_pos hc]; exact hc
    · rw [hml, if_neg hc]; exact align_up_mod b P hP0
  have hml_ge : b ≤ memLoc := by
    by_cases hc : b % P = 0
    · rw [hml, if_pos hc]
    · rw [hml, if_neg hc]; exact align_up_ge b P hP0
  have hml_end : memLoc + P * n ≤ b + P * g.pages_per_chunk := by
    by_cases hc : b % P = 0
    · rw [hml, if_pos hc, hn, if_pos hc]
      simp only [Nat.sub_zero]
      omega
    · rw [hml, if_neg hc, hn, if_neg hc]
      have h1 : align_up b P < b + P := align_up_lt b P hP0
      have h2 : P * (g.pages_per_chunk - 1) + P ≤ P * g.pages_per_chunk := by
        have : P * (g.pages_per_chunk - 1) + P = P * (g.pages_per_chunk - 1 + 1) := by ring
        rw [this]
        exact Nat.mul_le_mul_left _ (by omega)
      omega
  have hold_out : ∀ x ∈ allSlabs st, x.base + P ≤ b ∨ b + P * g.pages_per_chunk ≤ x.base := by
    intro x hx
    obtain ⟨_, _, _, hmapx⟩ := hall x hx
    obtain ⟨c, hc, hc1, hc2⟩ := hmapx
    rcases hdisj c hc with h | h
    · right; omega
    · left; omega
  have hfresh_mem : ∀ x ∈ fresh, ∃ k, k < n ∧ x = init_slab g (memLoc + P * k) (cidx k) := by
    intro x hx
    rw [hfresh] at hx
    obtain ⟨k, hk, hxe⟩ := List.mem_map.mp hx
    exact ⟨k, List.mem_range.mp hk, hxe.symm⟩
  have hfresh_base : ∀ k, (init_slab g (memLoc + P * k) (cidx k)).base = memLoc + P * k := by
    intro k; rfl
  have hfresh_bounds : ∀ k, k < n → b ≤ memLoc + P * k ∧ memLoc + P * k + P ≤ b + P * g.pages_per_chunk := by
    intro k hk
    constructor
    · omega
    · have : P * k + P ≤ P * n := by
        have : P * k + P = P * (k + 1) := by ring
        rw [this]
        exact Nat.mul_le_mul_left _ (by omega)
      omega
  have hfresh_region : ∀ k, k < n → slabRegionOk g (init_slab g (memLoc + P * k) (cidx k)) := by
    intro k hk
    refine ⟨?_, ?_, ?_⟩
    · show (memLoc + P * k) % P = 0
      rw [Nat.add_mod, hml_mod, Nat.mul_mod_right]
      rfl
    · show 0 < memLoc + P * k
      omega
    · show cidx k < g.color
      exact Nat.mod_lt _ hcol
  have hfresh_chains : ∀ k, k < n → slabChainsOk g (init_slab g (memLoc + P * k) (cidx k)) := by
    intro k hk
    refine ⟨?_, ?_, ?_, ?_⟩
    · rw [init_slab_local]
      exact fun a ha => ha
    · intro a ha; cases ha
    · have hat : (init_slab g (memLoc + P * k) (cidx k)).atomic_head = [] := rfl
      rw [init_slab_local, hat, List.append_nil]
      exact slotAddrs_nodup g _ hsz
    · show 0 + (init_slab g (memLoc + P * k) (cidx k)).local_head.length = g.obj_cnt
      rw [init_slab_local, slotAddrs_length]
      omega
  have hlive_not_fresh : ∀ a ∈ st.live, ∀ k, k < n →
      a ∉ slotAddrs g (init_slab g (memLoc + P * k) (cidx k)) ∧
      slab_of_addr g a ≠ memLoc + P * k := by
    intro a ha k hk
    obtain ⟨x, hx, hax⟩ := hls a ha
    obtain ⟨hregx, _, _, _⟩ := hall x hx
    have hin := slot_in_range g x a hg hregx hax
    have hbk := hfresh_bounds k hk
    rcases hold_out x hx with h | h
    · constructor
      · intro hcon
        have h2 := slot_in_range g _ a hg (hfresh_region k hk) hcon
        rw [hfresh_base] at h2
        omega
      · rw [hin.2.2]
        intro hcon
        omega
    · constructor
      · intro hcon
        have h2 := slot_in_range g _ a hg (hfresh_region k hk) hcon
        rw [hfresh_base] at h2
        omega
      · rw [hin.2.2]
        intro hcon
        omega
  have hfresh_acc : ∀ k, k < n →
      slabAccounted g st.live (init_slab g (memLoc + P * k) (cidx k)) := by
    intro k hk
    refine ⟨?_, ?_, ?_⟩
    · intro a ha hlv
      rw [init_slab_local] at ha
      exact (hlive_not_fresh a hlv k hk).1 ha
    · intro a ha; cases ha
    · have hat : (init_slab g (memLoc + P * k) (cidx k)).atomic_head = [] := rfl
      have hz : countLive g st.live (init_slab g (memLoc + P * k) (cidx k)).base = 0 := by
        apply countLive_eq_zero
        intro a ha
        rw [hfresh_base]
        exact (hlive_not_fresh a ha k hk).2
      rw [init_slab_local, slotAddrs_length, hat, hz]
      simp
  have hfresh_nd : (fresh.map Slab.base).Nodup := by
    rw [hfresh]
    rw [List.map_map]
    have heq : (Slab.base ∘ fun i => init_slab g (memLoc + P * i) (cidx i)) =
        fun i => memLoc + P * i := by
      funext i; rfl
    rw [heq]
    refine List.Nodup.map ?_ (List.nodup_range _)
    intro i j hij
    have h2 : memLoc + P * i = memLoc + P * j := hij
    have h3 : P * i = P * j := by omega
    exact Nat.eq_of_mul_eq_mul_left hP0 h3
  have hfresh_old_ne : ∀ x ∈ fresh, ∀ y ∈ allSlabs st, x.base ≠ y.base := by
    intro x hx y hy hxy
    obtain ⟨k, hk, rfl⟩ := hfresh_mem x hx
    have hbk := hfresh_bounds k hk
    rw [hfresh_base] at hxy
    rcases hold_out y hy with h | h
    · omega
    · omega
  -- the permutation of the new slab collection
  have hperm : (allSlabs (allocate_free_slab g b st)).Perm (fresh.reverse ++ allSlabs st) := by
    unfold allocate_free_slab
    cases hA : st.active with
    | none =>
      simp only [allSlabs, hA, List.nil_append]
      exact perm_pull_middle _ _ _
    | some a =>
      simp only [allSlabs, hA, List.singleton_append, List.cons_append]
      refine List.Perm.trans ?_ (List.perm_middle).symm
      exact (perm_pull_middle _ _ _).cons a
  have hfresh_rev : fresh.reverse.Perm fresh := List.reverse_perm fresh
  have hmemperm : ∀ x, x ∈ allSlabs (allocate_free_slab g b st) ↔ x ∈ fresh ∨ x ∈ allSlabs st := by
    intro x
    rw [hperm.mem_iff, List.mem_append, hfresh_rev.mem_iff]
  have hst'live : (allocate_free_slab g b st).live = st.live := rfl
  have hst'emp : (allocate_free_slab g b st).list_empty = st.list_empty := rfl
  have hst'ec : (allocate_free_slab g b st).empty_slab_count = st.empty_slab_count := rfl
  have hmapped' : (allocate_free_slab g b st).mapped_pages =
      st.mapped_pages ++ [(b, g.page_size * g.pages_per_chunk)] := rfl
  refine ⟨?_, ?_, ?_, ?_, ?_, ?_⟩
  · intro x hx
    rw [hst'live, hmapped']
    rcases (hmemperm x).mp hx with h | h
    · obtain ⟨k, hk, rfl⟩ := hfresh_mem x h
      refine ⟨hfresh_region k hk, hfresh_chains k hk, hfresh_acc k hk, ?_⟩
      refine ⟨(b, g.page_size * g.pages_per_chunk), List.mem_append_right _ (List.mem_singleton_self _), ?_, ?_⟩
      · rw [hfresh_base]; exact (hfresh_bounds k hk).1
      · rw [hfresh_base]; exact (hfresh_bounds k hk).2
    · obtain ⟨hr, hc, ha2, hm⟩ := hall x h
      refine ⟨hr, hc, ha2, ?_⟩
      obtain ⟨c, hcm, h1, h2⟩ := hm
      exact ⟨c, List.mem_append_left _ hcm, h1, h2⟩
  · have h1 := hperm.map Slab.base
    apply h1.nodup_iff.mpr
    rw [List.map_append]
    rw [List.nodup_append]
    refine ⟨?_, hnd, ?_⟩
    · have := (hfresh_rev.map Slab.base).nodup_iff
      exact this.mpr hfresh_nd
    · intro v hv hv2
      obtain ⟨x, hx, rfl⟩ := List.mem_map.mp hv
      obtain ⟨y, hy, hxy⟩ := List.mem_map.mp hv2
      exact hfresh_old_ne x (hfresh_rev.subset hx) y hy hxy.symm
  · rw [hst'live]; exact hld
  · rw [hst'live]
    intro a ha
    obtain ⟨x, hx, hax⟩ := hls a ha
    exact ⟨x, (hmemperm x).mpr (Or.inr hx), hax⟩
  · rw [hst'ec, hst'emp]; exact hec0
  · rw [hst'emp]; exact hez

theorem perm_cons_out (A : List Slab) (f : Slab) (X : List Slab) :
    (A ++ (f :: X)).Perm (f :: (A ++ X)) := List.perm_middle

theorem perm_cons_mid (A : List Slab) (f : Slab) (X G : List Slab) :
    ((A ++ (f :: X)) ++ G).Perm (f :: ((A ++ X) ++ G)) :=
  List.perm_middle.append_right G

theorem nodup_length_le (l l' : List Nat) (hd : l.Nodup) (hd' : l'.Nodup)
    (hsub : l ⊆ l') : l.length ≤ l'.length := by
  have h1 : l.toFinset.card = l.length := List.toFinset_card_of_nodup hd
  have h2 : l'.toFinset.card = l'.length := List.toFinset_card_of_nodup hd'
  have h3 : l.toFinset ⊆ l'.toFinset := by
    intro a ha
    rw [List.mem_toFinset] at ha ⊢
    exact hsub ha
  have := Finset.card_le_card h3
  omega

/-- The two chains of an invariant slab jointly fit in the slot set. -/
theorem chains_card (g : Geom) (s : Slab) (hg : GeomOk g) (hch : slabChainsOk g s) :
    s.local_head.length + s.atomic_head.length ≤ g.obj_cnt := by
  obtain ⟨hl, ha, hnd, hc⟩ := hch
  have hsub : s.local_head ++ s.atomic_head ⊆ slotAddrs g s := by
    intro x hx
    rcases List.mem_append.mp hx with h | h
    · exact hl h
    · exact ha h
  have hslots := slotAddrs_nodup g s (by obtain ⟨h, _⟩ := hg; exact h)
  have := nodup_length_le _ _ hnd hslots hsub
  rw [List.length_append, slotAddrs_length] at this
  exact this

/-- reclaim_remote keeps every per-slab invariant conjunct. -/
theorem reclaim_preserve (g : Geom) (live : List Nat) (s : Slab) (hg : GeomOk g)
    (hch : slabChainsOk g s) (hacc : slabAccounted g live s) :
    slabChainsOk g (reclaim_remote s).2 ∧ slabAccounted g live (reclaim_remote s).2 := by
  cases hah : s.atomic_head with
  | nil =>
    have : reclaim_remote s = (0, s) := by unfold reclaim_remote; rw [hah]
    rw [this]
    exact ⟨hch, hacc⟩
  | cons a tl =>
    have hne : s.atomic_head ≠ [] := by rw [hah]; simp
    rw [reclaim_remote_spec s hne]
    obtain ⟨hl, ha, hnd, hc⟩ := hch
    obtain ⟨hal, haa, hcnt⟩ := hacc
    have hcard := chains_card g s hg ⟨hl, ha, hnd, hc⟩
    have hcu : g.obj_cnt < U32 := by
      obtain ⟨_, _, _, _, _, _, _, h, _⟩ := hg; exact h
    constructor
    · refine ⟨?_, ?_, ?_, ?_⟩
      · intro x hx
        rcases List.mem_append.mp hx with h | h
        · exact ha h
        · exact hl h
      · intro x hx; cases hx
      · show ((s.atomic_head ++ s.local_head) ++ []).Nodup
        rw [List.append_nil]
        exact (List.perm_append_comm).nodup_iff.mp hnd
      · show sub32 s.active_obj_cnt s.atomic_head.length +
            (s.atomic_head ++ s.local_head).length = g.obj_cnt
        rw [List.length_append]
        rw [sub32_exact _ _ (by omega) (by omega)]
        omega
    · refine ⟨?_, ?_, ?_⟩
      · intro x hx
        rcases List.mem_append.mp hx with h | h
        · exact haa x h
        · exact hal x h
      · intro x hx; cases hx
      · show (s.atomic_head ++ s.local_head).length + ([] : List Nat).length +
            countLive g live s.base = g.obj_cnt
        rw [List.length_append]
        simp only [List.length_nil, Nat.add_zero]
        omega

theorem allocate_free_slab_mem (g : Geom) (b : Nat) (st : State) :
    ∀ x ∈ allSlabs st, x ∈ allSlabs (allocate_free_slab g b st) := by
  intro x hx
  unfold allocate_free_slab
  cases hA : st.active with
  | none =>
    simp only [allSlabs, hA, List.nil_append] at hx ⊢
    simp only [List.mem_append] at hx ⊢
    tauto
  | some a =>
    simp only [allSlabs, hA, List.singleton_append, List.mem_cons, List.mem_append] at hx ⊢
    tauto

/-- Taking the head of the global pool (stamping the owner) and popping
from it preserves the trace invariant. -/
theorem global_pick_inv (g : Geom) (t : Trace) (f : Slab) (rest : List Slab)
    (hg : GeomOk g) (hact : t.st.active = none) (hge : t.st.global_empty = f :: rest)
    (hinv : CacheInv g t.st)
    (hrets : ∀ a ∈ t.rets, ∃ x ∈ allSlabs t.st, a ∈ slotAddrs g x) :
    ∀ t1, pop_install g { t with st := { t.st with global_empty := rest } }
        { f with owner := true } = .ok t1 → TraceInv g t1 := by
  intro t1 h
  have hinv0 := hinv
  obtain ⟨hall, hnd, hld, hls, hec0, hez⟩ := hinv0
  set L := t.st.list_part ++ t.st.list_full ++ t.st.list_empty ++ rest with hL
  have hp : (allSlabs t.st).Perm (f :: L) := by
    rw [allSlabs_active_none t.st hact, hge]
    exact List.perm_middle
  have hfmem : f ∈ allSlabs t.st := hp.mem_iff.mpr (List.mem_cons_self _ _)
  obtain ⟨hregf, hchf, haccf, hmapf⟩ := hall f hfmem
  have hp' : (allSlabs { t.st with global_empty := rest, active := some { f with owner := true } }).Perm ({ f with owner := true } :: L) := by
    simp only [allSlabs]
    exact List.Perm.refl _
  refine (pop_install_inv g { t with st := { t.st with global_empty := rest } }
      { f with owner := true } hg ?_ ?_ t1 h).1
  · exact cacheInv_replace g t.st _ f { f with owner := true } L hp hp' rfl rfl rfl
      hregf hchf haccf hmapf rfl hec0 hez hinv
  · intro a ha
    obtain ⟨x, hx, hax⟩ := hrets a ha
    rcases List.mem_cons.mp (hp.subset hx) with rfl | hxL
    · exact ⟨{ x with owner := true }, hp'.mem_iff.mpr (List.mem_cons_self _ _), hax⟩
    · exact ⟨x, hp'.mem_iff.mpr (List.mem_cons_of_mem _ hxL), hax⟩

theorem fetch_global_slab_inv (g : Geom) (os : Option Nat) (t : Trace)
    (hg : GeomOk g) (hact : t.st.active = none) (hinv : CacheInv g t.st)
    (hrets : ∀ a ∈ t.rets, ∃ x ∈ allSlabs t.st, a ∈ slotAddrs g x) :
    ∀ t1, fetch_global_slab g os t = .ok t1 → TraceInv g t1 := by
  intro t1 h
  unfold fetch_global_slab at h
  cases hge : t.st.global_empty with
  | cons f rest =>
    rw [hge] at h
    exact global_pick_inv g t f rest hg hact hge hinv hrets t1 h
  | nil =>
    rw [hge] at h
    cases os with
    | none => exact Outcome.noConfusion h
    | some b =>
      by_cases hok : mmap_ok g t.st b = true
      · simp only [hok, if_true, eq_self_iff_true] at h
        cases hge2 : (allocate_free_slab g b t.st).global_empty with
        | nil =>
          rw [hge2] at h
          exact Outcome.noConfusion h
        | cons f rest =>
          rw [hge2] at h
          have hinv2 := allocate_free_slab_inv g b t.st hg hok hinv
          have hact2 : (allocate_free_slab g b t.st).active = none := hact
          have hrets2 : ∀ a ∈ t.rets, ∃ x ∈ allSlabs (allocate_free_slab g b t.st),
              a ∈ slotAddrs g x := by
            intro a ha
            obtain ⟨x, hx, hax⟩ := hrets a ha
            exact ⟨x, allocate_free_slab_mem g b t.st x hx, hax⟩
          exact global_pick_inv g { t with st := allocate_free_slab g b t.st } f rest
            hg hact2 hge2 hinv2 hrets2 t1 h
      · simp only [Bool.not_eq_true] at hok
        simp only [hok, Bool.false_eq_true, if_false] at h
        exact Outcome.noConfusion h
/-- The scavenge step preserves the trace invariant: cooldown bookkeeping
does not touch the slabs, and a reclaimed full slab is the same slab with
its remote chain spliced into the local one. -/
theorem scavenge_phase_inv (g : Geom) (os : Option Nat) (t : Trace)
    (hg : GeomOk g) (hact : t.st.active = none) (hinv : CacheInv g t.st)
    (hrets : ∀ a ∈ t.rets, ∃ x ∈ allSlabs t.st, a ∈ slotAddrs g x) :
    ∀ t1, scavenge_phase g os t = .ok t1 → TraceInv g t1 := by
  intro t1 h
  unfold scavenge_phase at h
  by_cases hcd : 0 < t.st.scavenge_cooldown
  · rw [if_pos hcd] at h
    exact fetch_global_slab_inv g os
      { t with st := { t.st with scavenge_cooldown := t.st.scavenge_cooldown - 1 } }
      hg hact hinv hrets t1 h
  · rw [if_neg hcd] at h
    cases hf : (t.st.list_full.reverse.take 64).find? (fun s => !s.atomic_head.isEmpty) with
    | none =>
      rw [hf] at h
      by_cases hfe : t.st.list_full.isEmpty = true
      · simp only [hfe, if_true, eq_self_iff_true] at h
        exact fetch_global_slab_inv g os t hg hact hinv hrets t1 h
      · simp only [Bool.not_eq_true] at hfe
        simp only [hfe, Bool.false_eq_true, if_false] at h
        exact fetch_global_slab_inv g os
          { t with st := { t.st with scavenge_cooldown := 64 } } hg hact hinv hrets t1 h
    | some s =>
      rw [hf] at h
      have hinv0 := hinv
      obtain ⟨hall, hnd, hld, hls, hec0, hez⟩ := hinv0
      have hps := List.find?_some hf
      have hmem1 : s ∈ t.st.list_full.reverse.take 64 := List.mem_of_find?_eq_some hf
      have hsmem : s ∈ t.st.list_full := List.mem_reverse.mp (List.take_subset _ _ hmem1)
      have hat : s.atomic_head ≠ [] := by
        intro he
        rw [he] at hps
        simp at hps
      set F' := removeFirst t.st.list_full s.base with hF'
      set L := t.st.list_part ++ F' ++ t.st.list_empty ++ t.st.global_empty with hL
      have hndF : (t.st.list_full.map Slab.base).Nodup := by
        have hsub : List.Sublist t.st.list_full
            (t.st.list_part ++ t.st.list_full ++ t.st.list_empty ++ t.st.global_empty) :=
          (((List.sublist_append_right _ _).trans
            (List.sublist_append_left _ _)).trans (List.sublist_append_left _ _))
        have hnd' := hnd
        rw [allSlabs_active_none t.st hact] at hnd'
        exact hnd'.sublist (hsub.map Slab.base)
      have hpermF : t.st.list_full.Perm (s :: F') := removeFirst_perm _ _ s hsmem rfl hndF
      have hp : (allSlabs t.st).Perm (s :: L) := by
        rw [allSlabs_active_none t.st hact]
        have h1 : (t.st.list_part ++ t.st.list_full).Perm (s :: (t.st.list_part ++ F')) :=
          (hpermF.append_left _).trans List.perm_middle
        exact (h1.append_right t.st.list_empty).append_right t.st.global_empty
      have hsmemAll : s ∈ allSlabs t.st := hp.mem_iff.mpr (List.mem_cons_self _ _)
      obtain ⟨hregf, hchf, haccf, hmapf⟩ := hall s hsmemAll
      have hrs := reclaim_remote_spec s hat
      have hca := reclaim_preserve g t.st.live s hg hchf haccf
      have hb1 : (reclaim_remote s).2.base = s.base := by rw [hrs]
      have hreg1 : slabRegionOk g (reclaim_remote s).2 := by rw [hrs]; exact hregf
      have hmap1 : slabMapped g t.st.mapped_pages (reclaim_remote s).2 := by
        rw [hrs]; exact hmapf
      have hslots1 : slotAddrs g (reclaim_remote s).2 = slotAddrs g s := by
        rw [hrs]; exact slotAddrs_update g s _ _ _ _
      have hp' : (allSlabs { t.st with list_full := F', scavenge_cooldown := 0, active := some (reclaim_remote s).2 }).Perm ((reclaim_remote s).2 :: L) := by
        simp only [allSlabs]
        exact List.Perm.refl _
      refine (pop_install_inv g
        { t with st := { t.st with list_full := F', scavenge_cooldown := 0 } }
        (reclaim_remote s).2 hg ?_ ?_ t1 h).1
      · exact cacheInv_replace g t.st _ s (reclaim_remote s).2 L hp hp' hb1 rfl rfl
          hreg1 hca.1 hca.2 hmap1 hslots1 hec0 hez hinv
      · intro a ha
        obtain ⟨x, hx, hax⟩ := hrets a ha
        rcases List.mem_cons.mp (hp.subset hx) with rfl | hxL
        · exact ⟨(reclaim_remote x).2, hp'.mem_iff.mpr (List.mem_cons_self _ _),
            by rw [hslots1]; exact hax⟩
        · exact ⟨x, hp'.mem_iff.mpr (List.mem_cons_of_mem _ hxL), hax⟩

/-- The refill path of the allocation slow path preserves the trace
invariant in every non-faulting branch. -/
theorem alloc_miss_inv (g : Geom) (os : Option Nat) (t : Trace)
    (hg : GeomOk g) (hact : t.st.active = none) (hinv : CacheInv g t.st)
    (hrets : ∀ a ∈ t.rets, ∃ x ∈ allSlabs t.st, a ∈ slotAddrs g x) :
    ∀ t1, alloc_miss g os t = .ok t1 → TraceInv g t1 := by
  intro t1 h
  unfold alloc_miss at h
  cases hle : t.st.list_empty with
  | cons s rest =>
    rw [hle] at h
    have hinv0 := hinv
    obtain ⟨hall, hnd, hld, hls, hec0, hez⟩ := hinv0
    set L := t.st.list_part ++ t.st.list_full ++ rest ++ t.st.global_empty with hL
    have hp : (allSlabs t.st).Perm (s :: L) := by
      rw [allSlabs_active_none t.st hact, hle]
      exact perm_cons_mid _ _ _ _
    have hp' : (allSlabs { t.st with list_empty := rest, empty_slab_count := sub32 t.st.empty_slab_count 1, active := some s }).Perm (s :: L) := by
      simp only [allSlabs]
      exact List.Perm.refl _
    have hec' : sub32 t.st.empty_slab_count 1 = rest.length % U32 := by
      rw [hec0, hle]
      have hlen : (s :: rest).length = rest.length + 1 := rfl
      rw [hlen, sub32_mod_pred (rest.length + 1) (by omega)]
      simp
    have hez' : ∀ x ∈ rest, x.active_obj_cnt = 0 := by
      intro x hx
      exact hez x (by rw [hle]; exact List.mem_cons_of_mem _ hx)
    refine (pop_install_inv g { t with st := { t.st with list_empty := rest, empty_slab_count := sub32 t.st.empty_slab_count 1 } } s hg ?_ ?_ t1 h).1
    · exact cacheInv_transfer g t.st _ (hp'.trans hp.symm) rfl rfl hec' hez' hinv
    · intro a ha
      obtain ⟨x, hx, hax⟩ := hrets a ha
      exact ⟨x, (hp'.trans hp.symm).mem_iff.mpr hx, hax⟩
  | nil =>
    rw [hle] at h
    cases hlp : t.st.list_part with
    | nil =>
      rw [hlp] at h
      exact scavenge_phase_inv g os t hg hact hinv hrets t1 h
    | cons s rest =>
      rw [hlp] at h
      have hinv0 := hinv
      obtain ⟨hall, hnd, hld, hls, hec0, hez⟩ := hinv0
      set L := rest ++ t.st.list_full ++ t.st.list_empty ++ t.st.global_empty with hL
      have hp : (allSlabs t.st).Perm (s :: L) := by
        rw [allSlabs_active_none t.st hact, hlp]
        exact List.Perm.refl _
      have hsmemAll : s ∈ allSlabs t.st := hp.mem_iff.mpr (List.mem_cons_self _ _)
      obtain ⟨hregf, hchf, haccf, hmapf⟩ := hall s hsmemAll
      by_cases hloc : s.local_head.isEmpty = true
      · simp only [hloc, if_true, eq_self_iff_true] at h
        cases hatc : s.atomic_head with
        | nil =>
          rw [hatc] at h
          exact Outcome.noConfusion h
        | cons a0 tl =>
          rw [hatc] at h
          have hat : s.atomic_head ≠ [] := by rw [hatc]; simp
          have hrs := reclaim_remote_spec s hat
          have hca := reclaim_preserve g t.st.live s hg hchf haccf
          have hb1 : (reclaim_remote s).2.base = s.base := by rw [hrs]
          have hreg1 : slabRegionOk g (reclaim_remote s).2 := by rw [hrs]; exact hregf
          have hmap1 : slabMapped g t.st.mapped_pages (reclaim_remote s).2 := by
            rw [hrs]; exact hmapf
          have hslots1 : slotAddrs g (reclaim_remote s).2 = slotAddrs g s := by
            rw [hrs]; exact slotAddrs_update g s _ _ _ _
          have hp' : (allSlabs { t.st with list_part := rest, active := some (reclaim_remote s).2 }).Perm ((reclaim_remote s).2 :: L) := by
            simp only [allSlabs]
            exact List.Perm.refl _
          refine (pop_install_inv g { t with st := { t.st with list_part := rest } }
            (reclaim_remote s).2 hg ?_ ?_ t1 h).1
          · exact cacheInv_replace g t.st _ s (reclaim_remote s).2 L hp hp' hb1 rfl rfl
              hreg1 hca.1 hca.2 hmap1 hslots1 hec0 hez hinv
          · intro a ha
            obtain ⟨x, hx, hax⟩ := hrets a ha
            rcases List.mem_cons.mp (hp.subset hx) with rfl | hxL
            · exact ⟨(reclaim_remote x).2, hp'.mem_iff.mpr (List.mem_cons_self _ _),
                by rw [hslots1]; exact hax⟩
            · exact ⟨x, hp'.mem_iff.mpr (List.mem_cons_of_mem _ hxL), hax⟩
      · simp only [Bool.not_eq_true] at hloc
        simp only [hloc, Bool.false_eq_true, if_false] at h
        have hp' : (allSlabs { t.st with list_part := rest, active := some s }).Perm (s :: L) := by
          simp only [allSlabs]
          exact List.Perm.refl _
        refine (pop_install_inv g { t with st := { t.st with list_part := rest } }
          s hg ?_ ?_ t1 h).1
        · exact cacheInv_transfer g t.st _ (hp'.trans hp.symm) rfl rfl hec0 hez hinv
        · intro a ha
          obtain ⟨x, hx, hax⟩ := hrets a ha
          exact ⟨x, (hp'.trans hp.symm).mem_iff.mpr hx, hax⟩

/-- thread_safe_alloc preserves the trace invariant: every successful
return keeps every slab well-formed and hands out a genuine slot. -/
theorem thread_safe_alloc_inv (g : Geom) (os : Option Nat) (t : Trace)
    (hg : GeomOk g) (hinv : CacheInv g t.st)
    (hrets : ∀ a ∈ t.rets, ∃ x ∈ allSlabs t.st, a ∈ slotAddrs g x) :
    ∀ t1, thread_safe_alloc g os t = .ok t1 → TraceInv g t1 := by
  intro t1 h
  unfold thread_safe_alloc at h
  cases hA : t.st.active with
  | none =>
    rw [hA] at h
    exact alloc_miss_inv g os t hg hA hinv hrets t1 h
  | some s =>
    rw [hA] at h
    by_cases hloc : s.local_head.isEmpty = true
    · simp only [hloc, if_true, eq_self_iff_true] at h
      have hperm : (allSlabs { t.st with active := none, list_full := s :: t.st.list_full }).Perm (allSlabs t.st) := by
        rw [allSlabs_active_some t.st s hA]
        exact (perm_cons_mid t.st.list_part s t.st.list_full
          t.st.list_empty).append_right t.st.global_empty
      have hinv0 := hinv
      obtain ⟨hall, hnd, hld, hls, hec0, hez⟩ := hinv0
      have hinv' : CacheInv g { t.st with active := none, list_full := s :: t.st.list_full } :=
        cacheInv_transfer g t.st _ hperm rfl rfl hec0 hez hinv
      have hrets' : ∀ a ∈ t.rets, ∃ x ∈ allSlabs { t.st with active := none, list_full := s :: t.st.list_full }, a ∈ slotAddrs g x := by
        intro a ha
        obtain ⟨x, hx, hax⟩ := hrets a ha
        exact ⟨x, hperm.mem_iff.mpr hx, hax⟩
      exact alloc_miss_inv g os { t with st := { t.st with active := none, list_full := s :: t.st.list_full } } hg rfl hinv' hrets' t1 h
    · simp only [Bool.not_eq_true] at hloc
      simp only [hloc, Bool.false_eq_true, if_false] at h
      have hEq : { t.st with active := some s } = t.st := by rw [← hA]
      have hinv' : CacheInv g { t.st with active := some s } := by rw [hEq]; exact hinv
      have hrets' : ∀ a ∈ t.rets, ∃ x ∈ allSlabs { t.st with active := some s }, a ∈ slotAddrs g x := by
        rw [hEq]; exact hrets
      exact (pop_install_inv g { t with st := { t.st with active := none } } s hg
        hinv' hrets' t1 h).1
theorem sublist_part (st : State) : List.Sublist st.list_part (allSlabs st) :=
  ((((List.sublist_append_right _ _).trans (List.sublist_append_left _ _)).trans
    (List.sublist_append_left _ _)).trans (List.sublist_append_left _ _))

theorem sublist_full (st : State) : List.Sublist st.list_full (allSlabs st) :=
  (((List.sublist_append_right _ _).trans (List.sublist_append_left _ _)).trans
    (List.sublist_append_left _ _))

theorem sublist_empty (st : State) : List.Sublist st.list_empty (allSlabs st) :=
  ((List.sublist_append_right _ _).trans (List.sublist_append_left _ _))

theorem sublist_glob (st : State) : List.Sublist st.global_empty (allSlabs st) :=
  List.sublist_append_right _ _

theorem perm_pull2 (A B C D E B' : List Slab) (s : Slab) (h : B.Perm (s :: B')) :
    (A ++ B ++ C ++ D ++ E).Perm (s :: (A ++ B' ++ C ++ D ++ E)) := by
  have h1 : (A ++ B).Perm (s :: (A ++ B')) := (h.append_left A).trans List.perm_middle
  exact ((h1.append_right C).append_right D).append_right E

theorem perm_pull3 (A B C D E C' : List Slab) (s : Slab) (h : C.Perm (s :: C')) :
    (A ++ B ++ C ++ D ++ E).Perm (s :: (A ++ B ++ C' ++ D ++ E)) := by
  have h1 : ((A ++ B) ++ C).Perm (s :: ((A ++ B) ++ C')) :=
    (h.append_left _).trans List.perm_middle
  exact (h1.append_right D).append_right E

theorem perm_pull4 (A B C D E D' : List Slab) (s : Slab) (h : D.Perm (s :: D')) :
    (A ++ B ++ C ++ D ++ E).Perm (s :: (A ++ B ++ C ++ D' ++ E)) := by
  have h1 : (((A ++ B) ++ C) ++ D).Perm (s :: (((A ++ B) ++ C) ++ D')) :=
    (h.append_left _).trans List.perm_middle
  exact h1.append_right E

theorem perm_pull5 (A B C D E E' : List Slab) (s : Slab) (h : E.Perm (s :: E')) :
    (A ++ B ++ C ++ D ++ E).Perm (s :: (A ++ B ++ C ++ D ++ E')) :=
  (h.append_left _).trans List.perm_middle

/-- What a successful lookup in the four context lists tells us. -/
theorem find_rest_spec (st : State) (b : Nat) (w : SlabLoc) (s : Slab)
    (h : find_rest st b = some (w, s)) :
    s.base = b ∧ ((w = .par ∧ s ∈ st.list_part) ∨ (w = .ful ∧ s ∈ st.list_full) ∨
      (w = .emp ∧ s ∈ st.list_empty) ∨ (w = .glob ∧ s ∈ st.global_empty)) := by
  unfold find_rest at h
  cases h1 : st.list_part.find? (fun x => x.base == b) with
  | some x =>
    rw [h1] at h
    cases h
    have hps0 := List.find?_some h1
    have hps : (s.base == b) = true := hps0
    exact ⟨beq_iff_eq.mp hps, Or.inl ⟨rfl, List.mem_of_find?_eq_some h1⟩⟩
  | none =>
    rw [h1] at h
    cases h2 : st.list_full.find? (fun x => x.base == b) with
    | some x =>
      rw [h2] at h
      cases h
      have hps0 := List.find?_some h2
      have hps : (s.base == b) = true := hps0
      exact ⟨beq_iff_eq.mp hps, Or.inr (Or.inl ⟨rfl, List.mem_of_find?_eq_some h2⟩)⟩
    | none =>
      rw [h2] at h
      cases h3 : st.list_empty.find? (fun x => x.base == b) with
      | some x =>
        rw [h3] at h
        cases h
        have hps0 := List.find?_some h3
        have hps : (s.base == b) = true := hps0
        exact ⟨beq_iff_eq.mp hps, Or.inr (Or.inr (Or.inl ⟨rfl, List.mem_of_find?_eq_some h3⟩))⟩
      | none =>
        rw [h3] at h
        cases h4 : st.global_empty.find? (fun x => x.base == b) with
        | some x =>
          rw [h4] at h
          cases h
          have hps0 := List.find?_some h4
          have hps : (s.base == b) = true := hps0
          exact ⟨beq_iff_eq.mp hps, Or.inr (Or.inr (Or.inr ⟨rfl, List.mem_of_find?_eq_some h4⟩))⟩
        | none =>
          rw [h4] at h
          cases h

/-- What a successful slab lookup tells us: the base matches and the slab
sits where the location tag says. -/
theorem find_slab_spec (st : State) (b : Nat) (w : SlabLoc) (s : Slab)
    (h : find_slab st b = some (w, s)) :
    s.base = b ∧ ((w = .act ∧ st.active = some s) ∨ (w = .par ∧ s ∈ st.list_part) ∨
      (w = .ful ∧ s ∈ st.list_full) ∨ (w = .emp ∧ s ∈ st.list_empty) ∨
      (w = .glob ∧ s ∈ st.global_empty)) := by
  unfold find_slab at h
  cases hA : st.active with
  | none =>
    rw [hA] at h
    obtain ⟨hb, hw⟩ := find_rest_spec st b w s h
    exact ⟨hb, Or.inr hw⟩
  | some x =>
    rw [hA] at h
    by_cases hx : x.base = b
    · simp only [hx, if_true, eq_self_iff_true] at h
      cases h
      exact ⟨hx, Or.inl ⟨rfl, rfl⟩⟩
    · simp only [hx, if_false] at h
      obtain ⟨hb, hw⟩ := find_rest_spec st b w s h
      exact ⟨hb, Or.inr hw⟩

theorem loc_mem (st : State) (w : SlabLoc) (s : Slab)
    (hw : (w = .act ∧ st.active = some s) ∨ (w = .par ∧ s ∈ st.list_part) ∨
      (w = .ful ∧ s ∈ st.list_full) ∨ (w = .emp ∧ s ∈ st.list_empty) ∨
      (w = .glob ∧ s ∈ st.global_empty)) : s ∈ allSlabs st := by
  rcases hw with ⟨_, hA⟩ | ⟨_, hm⟩ | ⟨_, hm⟩ | ⟨_, hm⟩ | ⟨_, hm⟩
  · rw [allSlabs_active_some st s hA]
    exact List.mem_cons_self _ _
  · exact (sublist_part st).subset hm
  · exact (sublist_full st).subset hm
  · exact (sublist_empty st).subset hm
  · exact (sublist_glob st).subset hm

/-- Unlinking the found slab pulls it out of the slab multiset. -/
theorem drop_pull (st : State) (b : Nat) (w : SlabLoc) (s : Slab)
    (hnd : ((allSlabs st).map Slab.base).Nodup) (hb : s.base = b)
    (hw : (w = .act ∧ st.active = some s) ∨ (w = .par ∧ s ∈ st.list_part) ∨
      (w = .ful ∧ s ∈ st.list_full) ∨ (w = .emp ∧ s ∈ st.list_empty) ∨
      (w = .glob ∧ s ∈ st.global_empty)) :
    (allSlabs st).Perm (s :: allSlabs (drop_from st w b)) := by
  rcases hw with ⟨rfl, hA⟩ | ⟨rfl, hm⟩ | ⟨rfl, hm⟩ | ⟨rfl, hm⟩ | ⟨rfl, hm⟩
  · rw [allSlabs_active_some st s hA]
    have he : allSlabs (drop_from st .act b) =
        st.list_part ++ st.list_full ++ st.list_empty ++ st.global_empty :=
      allSlabs_active_none _ rfl
    rw [he]
  · have hndl : (st.list_part.map Slab.base).Nodup := hnd.sublist ((sublist_part st).map _)
    exact perm_pull2 _ _ _ _ _ _ _ (removeFirst_perm _ _ s hm hb hndl)
  · have hndl : (st.list_full.map Slab.base).Nodup := hnd.sublist ((sublist_full st).map _)
    exact perm_pull3 _ _ _ _ _ _ _ (removeFirst_perm _ _ s hm hb hndl)
  · have hndl : (st.list_empty.map Slab.base).Nodup := hnd.sublist ((sublist_empty st).map _)
    exact perm_pull4 _ _ _ _ _ _ _ (removeFirst_perm _ _ s hm hb hndl)
  · have hndl : (st.global_empty.map Slab.base).Nodup := hnd.sublist ((sublist_glob st).map _)
    exact perm_pull5 _ _ _ _ _ _ _ (removeFirst_perm _ _ s hm hb hndl)

/-- Rewriting the found slab in place is, up to permutation, unlinking it
and consing the replacement. -/
theorem putback_perm (st : State) (b : Nat) (w : SlabLoc) (s s1 : Slab)
    (hnd : ((allSlabs st).map Slab.base).Nodup) (hb : s.base = b)
    (hw : (w = .act ∧ st.active = some s) ∨ (w = .par ∧ s ∈ st.list_part) ∨
      (w = .ful ∧ s ∈ st.list_full) ∨ (w = .emp ∧ s ∈ st.list_empty) ∨
      (w = .glob ∧ s ∈ st.global_empty)) :
    (allSlabs (put_back st w b s1)).Perm (s1 :: allSlabs (drop_from st w b)) := by
  rcases hw with ⟨rfl, hA⟩ | ⟨rfl, hm⟩ | ⟨rfl, hm⟩ | ⟨rfl, hm⟩ | ⟨rfl, hm⟩
  · have he1 : allSlabs (put_back st .act b s1) =
        s1 :: (st.list_part ++ st.list_full ++ st.list_empty ++ st.global_empty) :=
      allSlabs_active_some _ _ rfl
    have he : allSlabs (drop_from st .act b) =
        st.list_part ++ st.list_full ++ st.list_empty ++ st.global_empty :=
      allSlabs_active_none _ rfl
    rw [he1, he]
  · have hndl : (st.list_part.map Slab.base).Nodup := hnd.sublist ((sublist_part st).map _)
    exact perm_pull2 _ _ _ _ _ _ _ (updFirst_perm _ _ s s1 hm hb hndl)
  · have hndl : (st.list_full.map Slab.base).Nodup := hnd.sublist ((sublist_full st).map _)
    exact perm_pull3 _ _ _ _ _ _ _ (updFirst_perm _ _ s s1 hm hb hndl)
  · have hndl : (st.list_empty.map Slab.base).Nodup := hnd.sublist ((sublist_empty st).map _)
    exact perm_pull4 _ _ _ _ _ _ _ (updFirst_perm _ _ s s1 hm hb hndl)
  · have hndl : (st.global_empty.map Slab.base).Nodup := hnd.sublist ((sublist_glob st).map _)
    exact perm_pull5 _ _ _ _ _ _ _ (updFirst_perm _ _ s s1 hm hb hndl)

theorem countLive_erase_ne (g : Geom) (l : List Nat) (a b : Nat)
    (hne : slab_of_addr g a ≠ b) : countLive g (l.erase a) b = countLive g l b := by
  by_cases hm : a ∈ l
  · rw [countLive_cons_erase g l a b hm, countLive_single]
    simp [hne]
  · rw [List.erase_of_not_mem hm]

theorem countLive_erase_self (g : Geom) (l : List Nat) (a b : Nat)
    (hm : a ∈ l) (hb : slab_of_addr g a = b) :
    countLive g l b = countLive g (l.erase a) b + 1 := by
  rw [countLive_cons_erase g l a b hm, countLive_single]
  simp [hb, Nat.add_comm]

theorem rets_transfer (g : Geom) (st st' : State) (s s1 : Slab) (L : List Slab)
    (hp : (allSlabs st).Perm (s :: L)) (hp' : (allSlabs st').Perm (s1 :: L))
    (hslots : slotAddrs g s1 = slotAddrs g s) (r : Nat)
    (hr : ∃ y ∈ allSlabs st, r ∈ slotAddrs g y) :
    ∃ y ∈ allSlabs st', r ∈ slotAddrs g y := by
  obtain ⟨y, hy, hry⟩ := hr
  rcases List.mem_cons.mp (hp.subset hy) with rfl | hyL
  · exact ⟨s1, hp'.mem_iff.mpr (List.mem_cons_self _ _), by rw [hslots]; exact hry⟩
  · exact ⟨y, hp'.mem_iff.mpr (List.mem_cons_of_mem _ hyL), hry⟩

/-- Invariant update for a free: one slot of one slab goes from live to a
chain of the owning slab, which may also move or be rewritten in place. -/
theorem cacheInv_free_upd (g : Geom) (st st' : State) (a : Nat) (s s1 : Slab)
    (L : List Slab) (hg : GeomOk g)
    (hp : (allSlabs st).Perm (s :: L)) (hp' : (allSlabs st').Perm (s1 :: L))
    (hlive' : st'.live = st.live.erase a) (hmap : st'.mapped_pages = st.mapped_pages)
    (halive : a ∈ st.live) (hb : s1.base = s.base)
    (hslots : slotAddrs g s1 = slotAddrs g s) (haslot : a ∈ slotAddrs g s)
    (hreg1 : slabRegionOk g s1) (hch1 : slabChainsOk g s1)
    (hacc1 : slabAccounted g (st.live.erase a) s1)
    (hmap1 : slabMapped g st.mapped_pages s1)
    (hec' : st'.empty_slab_count = st'.list_empty.length % U32)
    (hez' : ∀ x ∈ st'.list_empty, x.active_obj_cnt = 0)
    (hinv : CacheInv g st) : CacheInv g st' := by
  obtain ⟨hall, hnd, hld, hls, hec0, hez⟩ := hinv
  have hsmem : s ∈ allSlabs st := hp.mem_iff.mpr (List.mem_cons_self _ _)
  obtain ⟨hregs, hchs, haccs, hmaps⟩ := hall s hsmem
  have hsba : slab_of_addr g a = s.base := (slot_in_range g s a hg hregs haslot).2.2
  have hndSL : ((s :: L).map Slab.base).Nodup := ((hp.map Slab.base).nodup_iff).mp hnd
  have hsnotL : s.base ∉ L.map Slab.base := by
    have h2 := List.nodup_cons.mp hndSL
    simpa using h2.1
  refine ⟨?_, ?_, ?_, ?_, hec', hez'⟩
  · intro x hx
    rcases List.mem_cons.mp (hp'.subset hx) with rfl | hxL
    · rw [hlive', hmap]
      exact ⟨hreg1, hch1, hacc1, hmap1⟩
    · have hxmem : x ∈ allSlabs st := hp.mem_iff.mpr (List.mem_cons_of_mem _ hxL)
      obtain ⟨hregx, hchx, haccx, hmapx⟩ := hall x hxmem
      refine ⟨hregx, hchx, ?_, by rw [hmap]; exact hmapx⟩
      obtain ⟨hxl, hxa, hxc⟩ := haccx
      rw [hlive']
      have hxb : x.base ≠ s.base := by
        intro he
        exact hsnotL (he ▸ List.mem_map_of_mem Slab.base hxL)
      refine ⟨fun y hy hy2 => hxl y hy (List.erase_subset a st.live hy2),
        fun y hy hy2 => hxa y hy (List.erase_subset a st.live hy2), ?_⟩
      rw [countLive_erase_ne g st.live a x.base (by rw [hsba]; exact fun he => hxb he.symm)]
      exact hxc
  · have hmapeq : (s1 :: L).map Slab.base = (s :: L).map Slab.base := by simp [hb]
    exact ((hp'.map Slab.base).nodup_iff).mpr (hmapeq ▸ hndSL)
  · rw [hlive']
    exact hld.erase a
  · intro y hy
    rw [hlive'] at hy
    exact rets_transfer g st st' s s1 L hp hp' hslots y
      (hls y (List.erase_subset a st.live hy))
theorem put_back_live (st : State) (w : SlabLoc) (b : Nat) (s1 : Slab) :
    (put_back st w b s1).live = st.live := by cases w <;> rfl

theorem put_back_mapped (st : State) (w : SlabLoc) (b : Nat) (s1 : Slab) :
    (put_back st w b s1).mapped_pages = st.mapped_pages := by cases w <;> rfl

theorem put_back_esc (st : State) (w : SlabLoc) (b : Nat) (s1 : Slab) :
    (put_back st w b s1).empty_slab_count = st.empty_slab_count := by cases w <;> rfl

theorem put_back_le_ne (st : State) (w : SlabLoc) (b : Nat) (s1 : Slab) (hw : w ≠ .emp) :
    (put_back st w b s1).list_empty = st.list_empty := by
  cases w
  · rfl
  · rfl
  · rfl
  · exact absurd rfl hw
  · rfl

theorem allSlabs_put_back_erase (st : State) (l : List Nat) (w : SlabLoc) (b : Nat)
    (s1 : Slab) :
    allSlabs (put_back { st with live := l } w b s1) = allSlabs (put_back st w b s1) := by
  cases w <;> rfl

theorem drop_from_live (st : State) (w : SlabLoc) (b : Nat) :
    (drop_from st w b).live = st.live := by cases w <;> rfl

theorem drop_from_mapped (st : State) (w : SlabLoc) (b : Nat) :
    (drop_from st w b).mapped_pages = st.mapped_pages := by cases w <;> rfl

theorem drop_from_esc (st : State) (w : SlabLoc) (b : Nat) :
    (drop_from st w b).empty_slab_count = st.empty_slab_count := by cases w <;> rfl

theorem drop_from_le_ne (st : State) (w : SlabLoc) (b : Nat) (hw : w ≠ .emp) :
    (drop_from st w b).list_empty = st.list_empty := by
  cases w
  · rfl
  · rfl
  · rfl
  · exact absurd rfl hw
  · rfl

theorem allSlabs_drop_erase (st : State) (l : List Nat) (w : SlabLoc) (b : Nat) :
    allSlabs (drop_from { st with live := l } w b) = allSlabs (drop_from st w b) := by
  cases w <;> rfl

/-- Pushing a freed slot onto the owner's local chain: both chain
well-formedness and the free/live accounting survive. -/
theorem free_chains_upd (g : Geom) (live : List Nat) (s : Slab) (a : Nat)
    (hg : GeomOk g) (hch : slabChainsOk g s) (hacc : slabAccounted g live s)
    (halive : a ∈ live) (haslot : a ∈ slotAddrs g s)
    (hsb : slab_of_addr g a = s.base) (hld : live.Nodup) :
    slabChainsOk g { s with local_head := a :: s.local_head, active_obj_cnt := sub32 s.active_obj_cnt 1 } ∧
    slabAccounted g (live.erase a) { s with local_head := a :: s.local_head, active_obj_cnt := sub32 s.active_obj_cnt 1 } := by
  obtain ⟨hlsub, hasub, hchnd, hccnt⟩ := hch
  obtain ⟨hll, haa, hcnt⟩ := hacc
  have hobj : g.obj_cnt < U32 := by
    obtain ⟨h1, h2, h3, h4, h5, h6, h7, h8, h9⟩ := hg
    exact h8
  have hcl1 : 1 ≤ countLive g live s.base := countLive_pos g live a s.base halive hsb
  have hanl : a ∉ s.local_head := fun hc => hll a hc halive
  have hana : a ∉ s.atomic_head := fun hc => haa a hc halive
  have hcur : 1 ≤ s.active_obj_cnt := by omega
  have hlt : s.active_obj_cnt < U32 := by omega
  have hslots : slotAddrs g { s with local_head := a :: s.local_head, active_obj_cnt := sub32 s.active_obj_cnt 1 } = slotAddrs g s :=
    slotAddrs_update g s _ _ _ _
  constructor
  · refine ⟨?_, ?_, ?_, ?_⟩
    · intro y hy
      rw [hslots]
      rcases List.mem_cons.mp hy with rfl | hy2
      · exact haslot
      · exact hlsub hy2
    · intro y hy
      rw [hslots]
      exact hasub hy
    · show ((a :: s.local_head) ++ s.atomic_head).Nodup
      rw [List.cons_append]
      refine List.nodup_cons.mpr ⟨?_, hchnd⟩
      intro hc
      rcases List.mem_append.mp hc with hc2 | hc2
      · exact hanl hc2
      · exact hana hc2
    · show sub32 s.active_obj_cnt 1 + (a :: s.local_head).length = g.obj_cnt
      rw [sub32_exact _ _ hcur hlt, List.length_cons]
      omega
  · refine ⟨?_, ?_, ?_⟩
    · intro y hy hy2
      rcases List.mem_cons.mp hy with rfl | hy3
      · exact ((hld.mem_erase_iff).mp hy2).1 rfl
      · exact hll y hy3 (List.erase_subset a live hy2)
    · intro y hy hy2
      exact haa y hy (List.erase_subset a live hy2)
    · show (a :: s.local_head).length + s.atomic_head.length +
        countLive g (live.erase a) s.base = g.obj_cnt
      rw [List.length_cons]
      have hce := countLive_erase_self g live a s.base halive hsb
      omega

/-- CAS-pushing a freed slot onto the remote chain: chains and accounting
survive, with active_obj_cnt untouched. -/
theorem remote_chains_upd (g : Geom) (live : List Nat) (s : Slab) (a : Nat)
    (hg : GeomOk g) (hch : slabChainsOk g s) (hacc : slabAccounted g live s)
    (halive : a ∈ live) (haslot : a ∈ slotAddrs g s)
    (hsb : slab_of_addr g a = s.base) (hld : live.Nodup) :
    slabChainsOk g { s with atomic_head := a :: s.atomic_head } ∧
    slabAccounted g (live.erase a) { s with atomic_head := a :: s.atomic_head } := by
  obtain ⟨hlsub, hasub, hchnd, hccnt⟩ := hch
  obtain ⟨hll, haa, hcnt⟩ := hacc
  have hanl : a ∉ s.local_head := fun hc => hll a hc halive
  have hana : a ∉ s.atomic_head := fun hc => haa a hc halive
  have hslots : slotAddrs g { s with atomic_head := a :: s.atomic_head } = slotAddrs g s :=
    slotAddrs_update g s _ _ _ _
  constructor
  · refine ⟨?_, ?_, ?_, ?_⟩
    · intro y hy
      rw [hslots]
      exact hlsub hy
    · intro y hy
      rw [hslots]
      rcases List.mem_cons.mp hy with rfl | hy2
      · exact haslot
      · exact hasub hy2
    · show (s.local_head ++ (a :: s.atomic_head)).Nodup
      have hperm : (s.local_head ++ (a :: s.atomic_head)).Perm
          (a :: (s.local_head ++ s.atomic_head)) := List.perm_middle
      rw [hperm.nodup_iff]
      refine List.nodup_cons.mpr ⟨?_, hchnd⟩
      intro hc
      rcases List.mem_append.mp hc with hc2 | hc2
      · exact hanl hc2
      · exact hana hc2
    · show s.active_obj_cnt + s.local_head.length = g.obj_cnt
      exact hccnt
  · refine ⟨?_, ?_, ?_⟩
    · intro y hy hy2
      exact hll y hy (List.erase_subset a live hy2)
    · intro y hy hy2
      rcases List.mem_cons.mp hy with rfl | hy3
      · exact ((hld.mem_erase_iff).mp hy2).1 rfl
      · exact haa y hy3 (List.erase_subset a live hy2)
    · show s.local_head.length + (a :: s.atomic_head).length +
        countLive g (live.erase a) s.base = g.obj_cnt
      rw [List.length_cons]
      have hce := countLive_erase_self g live a s.base halive hsb
      omega

theorem outcome_ok_inv (g : Geom) (X t1 : Trace) (hX : TraceInv g X)
    (h : Outcome.ok X = Outcome.ok t1) : TraceInv g t1 := by
  cases h
  exact hX

/-- Each iteration of the hoarding-control loop moves one empty slab to
the global pool, clearing the owner stamp; the invariant survives. -/
theorem rsg_loop_inv (g : Geom) (hg : GeomOk g) (n : Nat) :
    ∀ st : State, CacheInv g st → CacheInv g (rsg_loop n st) := by
  induction n with
  | zero => exact fun st hinv => hinv
  | succ n ih =>
    intro st hinv
    unfold rsg_loop
    cases hle : st.list_empty with
    | nil => exact hinv
    | cons s rest =>
      refine ih _ ?_
      obtain ⟨hall, hnd, hld, hls, hec0, hez⟩ := hinv
      have hsmE : s ∈ st.list_empty := by
        rw [hle]
        exact List.mem_cons_self _ _
      have hsmem : s ∈ allSlabs st := (sublist_empty st).subset hsmE
      obtain ⟨hregs, hchs, haccs, hmaps⟩ := hall s hsmem
      have hperm0 : st.list_empty.Perm (s :: rest) := by rw [hle]
      have hp : (allSlabs st).Perm (s :: allSlabs { st with list_empty := rest }) :=
        perm_pull4 _ _ _ _ _ _ _ hperm0
      have hp' : (allSlabs { st with list_empty := rest, global_empty := { s with owner := false } :: st.global_empty, empty_slab_count := sub32 st.empty_slab_count 1 }).Perm ({ s with owner := false } :: allSlabs { st with list_empty := rest }) :=
        perm_pull5 _ _ _ _ _ _ _ (List.Perm.refl _)
      have hec' : sub32 st.empty_slab_count 1 = rest.length % U32 := by
        rw [hec0, hle]
        have hlen : (s :: rest).length = rest.length + 1 := rfl
        rw [hlen, sub32_mod_pred (rest.length + 1) (by omega)]
        simp
      have hez' : ∀ x ∈ rest, x.active_obj_cnt = 0 := by
        intro x hx
        exact hez x (by rw [hle]; exact List.mem_cons_of_mem _ hx)
      exact cacheInv_replace g st _ s { s with owner := false } _ hp hp' rfl rfl rfl
        hregs hchs haccs hmaps (slotAddrs_update g s _ _ _ _) hec' hez'
        ⟨hall, hnd, hld, hls, hec0, hez⟩

/-- The hoarding-control loop does not lose any slot address. -/
theorem rsg_loop_slots (g : Geom) (n : Nat) :
    ∀ (st : State) (r : Nat), (∃ y ∈ allSlabs st, r ∈ slotAddrs g y) →
      ∃ y ∈ allSlabs (rsg_loop n st), r ∈ slotAddrs g y := by
  induction n with
  | zero => exact fun st r h => h
  | succ n ih =>
    intro st r hr
    unfold rsg_loop
    cases hle : st.list_empty with
    | nil => exact hr
    | cons s rest =>
      refine ih _ r ?_
      have hperm0 : st.list_empty.Perm (s :: rest) := by rw [hle]
      have hp : (allSlabs st).Perm (s :: allSlabs { st with list_empty := rest }) :=
        perm_pull4 _ _ _ _ _ _ _ hperm0
      have hp' : (allSlabs { st with list_empty := rest, global_empty := { s with owner := false } :: st.global_empty, empty_slab_count := sub32 st.empty_slab_count 1 }).Perm ({ s with owner := false } :: allSlabs { st with list_empty := rest }) :=
        perm_pull5 _ _ _ _ _ _ _ (List.Perm.refl _)
      exact rets_transfer g st _ s { s with owner := false } _ hp hp'
        (slotAddrs_update g s _ _ _ _) r hr

/-- Freeing a live address into a slab the calling thread does not own:
the object is CAS-pushed onto atomic_head and the invariant survives. -/
theorem atomic_push_inv (g : Geom) (a : Nat) (t : Trace) (w : SlabLoc) (s : Slab)
    (hooks2 : List (Bool × Nat)) (hg : GeomOk g) (hinv : CacheInv g t.st)
    (hrets : ∀ r ∈ t.rets, ∃ y ∈ allSlabs t.st, r ∈ slotAddrs g y)
    (hlive : a ∈ t.st.live)
    (hfs : find_slab t.st (slab_of_addr g a) = some (w, s)) :
    TraceInv g { st := put_back { t.st with live := t.st.live.erase a } w s.base { s with atomic_head := a :: s.atomic_head }, rets := t.rets, hooks := hooks2 } := by
  obtain ⟨hbase, hw⟩ := find_slab_spec _ _ _ _ hfs
  have hinv0 := hinv
  obtain ⟨hall, hnd, hld, hls, hec0, hez⟩ := hinv0
  have hsmem : s ∈ allSlabs t.st := loc_mem _ _ _ hw
  obtain ⟨hregs, hchs, haccs, hmaps⟩ := hall s hsmem
  obtain ⟨sl, hslm, hasl⟩ := hls a hlive
  obtain ⟨hregsl, hq1, hq2, hq3⟩ := hall sl hslm
  have hsba : slab_of_addr g a = sl.base := (slot_in_range g sl a hg hregsl hasl).2.2
  have hsl_eq : sl = s :=
    List.inj_on_of_nodup_map hnd hslm hsmem (hbase.trans hsba).symm
  have haslot : a ∈ slotAddrs g s := hsl_eq ▸ hasl
  have hsb : slab_of_addr g a = s.base := hbase.symm
  have hcu := remote_chains_upd g t.st.live s a hg hchs haccs hlive haslot hsb hld
  have hcl1 : 1 ≤ countLive g t.st.live s.base := countLive_pos g t.st.live a s.base hlive hsb
  obtain ⟨hlsub, hasub, hchnd, hccnt⟩ := hchs
  obtain ⟨hll2, haa2, hcnt2⟩ := haccs
  have hw_emp : s ∉ t.st.list_empty := by
    intro hm
    have hz : s.active_obj_cnt = 0 := hez s hm
    omega
  have hwne : w ≠ .emp := by
    rintro rfl
    rcases hw with ⟨hc, hd⟩ | ⟨hc, hd⟩ | ⟨hc, hd⟩ | ⟨hc, hd⟩ | ⟨hc, hd⟩
    · cases hc
    · cases hc
    · cases hc
    · exact hw_emp hd
    · cases hc
  have hp : (allSlabs t.st).Perm (s :: allSlabs (drop_from t.st w s.base)) :=
    drop_pull t.st s.base w s hnd rfl hw
  have hp' : (allSlabs (put_back { t.st with live := t.st.live.erase a } w s.base { s with atomic_head := a :: s.atomic_head })).Perm ({ s with atomic_head := a :: s.atomic_head } :: allSlabs (drop_from t.st w s.base)) := by
    rw [allSlabs_put_back_erase]
    exact putback_perm t.st s.base w s _ hnd rfl hw
  have hec' : (put_back { t.st with live := t.st.live.erase a } w s.base { s with atomic_head := a :: s.atomic_head }).empty_slab_count = (put_back { t.st with live := t.st.live.erase a } w s.base { s with atomic_head := a :: s.atomic_head }).list_empty.length % U32 := by
    rw [put_back_esc, put_back_le_ne _ _ _ _ hwne]
    exact hec0
  have hez' : ∀ x ∈ (put_back { t.st with live := t.st.live.erase a } w s.base { s with atomic_head := a :: s.atomic_head }).list_empty, x.active_obj_cnt = 0 := by
    rw [put_back_le_ne _ _ _ _ hwne]
    exact hez
  refine ⟨cacheInv_free_upd g t.st _ a s _ _ hg hp hp'
      (by rw [put_back_live]) (by rw [put_back_mapped]) hlive rfl
      (slotAddrs_update g s _ _ _ _) haslot hregs hcu.1 hcu.2 hmaps hec' hez' hinv, ?_⟩
  intro r hr
  exact rets_transfer g t.st _ s _ _ hp hp' (slotAddrs_update g s _ _ _ _) r (hrets r hr)
/-- Owner free hitting the active slab: push onto its local chain in
place. -/
theorem owner_act_inv (g : Geom) (a : Nat) (t : Trace) (s : Slab)
    (hooks2 : List (Bool × Nat)) (hg : GeomOk g) (hinv : CacheInv g t.st)
    (hrets : ∀ r ∈ t.rets, ∃ y ∈ allSlabs t.st, r ∈ slotAddrs g y)
    (hlive : a ∈ t.st.live)
    (hfs : find_slab t.st (slab_of_addr g a) = some (.act, s)) :
    TraceInv g { st := { t.st with live := t.st.live.erase a, active := some { s with local_head := a :: s.local_head, active_obj_cnt := sub32 s.active_obj_cnt 1 } }, rets := t.rets, hooks := hooks2 } := by
  obtain ⟨hbase, hw⟩ := find_slab_spec _ _ _ _ hfs
  have hinv0 := hinv
  obtain ⟨hall, hnd, hld, hls, hec0, hez⟩ := hinv0
  have hsmem : s ∈ allSlabs t.st := loc_mem _ _ _ hw
  obtain ⟨hregs, hchs, haccs, hmaps⟩ := hall s hsmem
  obtain ⟨sl, hslm, hasl⟩ := hls a hlive
  obtain ⟨hregsl, hq1, hq2, hq3⟩ := hall sl hslm
  have hsba : slab_of_addr g a = sl.base := (slot_in_range g sl a hg hregsl hasl).2.2
  have hsl_eq : sl = s :=
    List.inj_on_of_nodup_map hnd hslm hsmem (hbase.trans hsba).symm
  have haslot : a ∈ slotAddrs g s := hsl_eq ▸ hasl
  have hsb : slab_of_addr g a = s.base := hbase.symm
  have hcu := free_chains_upd g t.st.live s a hg hchs haccs hlive haslot hsb hld
  have hA : t.st.active = some s := by
    rcases hw with ⟨hc, hd⟩ | ⟨hc, hd⟩ | ⟨hc, hd⟩ | ⟨hc, hd⟩ | ⟨hc, hd⟩
    · exact hd
    · cases hc
    · cases hc
    · cases hc
    · cases hc
  have hpA : (allSlabs t.st).Perm (s :: (t.st.list_part ++ t.st.list_full ++ t.st.list_empty ++ t.st.global_empty)) := by
    rw [allSlabs_active_some t.st s hA]
  have hpA' : (allSlabs { t.st with live := t.st.live.erase a, active := some { s with local_head := a :: s.local_head, active_obj_cnt := sub32 s.active_obj_cnt 1 } }).Perm ({ s with local_head := a :: s.local_head, active_obj_cnt := sub32 s.active_obj_cnt 1 } :: (t.st.list_part ++ t.st.list_full ++ t.st.list_empty ++ t.st.global_empty)) := by
    rw [allSlabs_active_some _ _ rfl]
  refine ⟨?_, ?_⟩
  · exact cacheInv_free_upd g t.st _ a s _ _ hg hpA hpA' rfl rfl hlive rfl
      (slotAddrs_update g s _ _ _ _) haslot hregs hcu.1 hcu.2 hmaps hec0 hez hinv
  · intro r hr
    exact rets_transfer g t.st _ s _ _ hpA hpA' (slotAddrs_update g s _ _ _ _) r (hrets r hr)

/-- Owner free dropping the slab's count to obj_cnt - 1: the slab is
unlinked and pushed onto list_partial. -/
theorem owner_move_partial_inv (g : Geom) (a : Nat) (t : Trace) (w : SlabLoc) (s : Slab)
    (hooks2 : List (Bool × Nat)) (hg : GeomOk g) (hinv : CacheInv g t.st)
    (hrets : ∀ r ∈ t.rets, ∃ y ∈ allSlabs t.st, r ∈ slotAddrs g y)
    (hlive : a ∈ t.st.live)
    (hfs : find_slab t.st (slab_of_addr g a) = some (w, s)) :
    TraceInv g { st := { drop_from { t.st with live := t.st.live.erase a } w s.base with list_part := { s with local_head := a :: s.local_head, active_obj_cnt := sub32 s.active_obj_cnt 1 } :: (drop_from { t.st with live := t.st.live.erase a } w s.base).list_part }, rets := t.rets, hooks := hooks2 } := by
  obtain ⟨hbase, hw⟩ := find_slab_spec _ _ _ _ hfs
  have hinv0 := hinv
  obtain ⟨hall, hnd, hld, hls, hec0, hez⟩ := hinv0
  have hsmem : s ∈ allSlabs t.st := loc_mem _ _ _ hw
  obtain ⟨hregs, hchs, haccs, hmaps⟩ := hall s hsmem
  obtain ⟨sl, hslm, hasl⟩ := hls a hlive
  obtain ⟨hregsl, hq1, hq2, hq3⟩ := hall sl hslm
  have hsba : slab_of_addr g a = sl.base := (slot_in_range g sl a hg hregsl hasl).2.2
  have hsl_eq : sl = s :=
    List.inj_on_of_nodup_map hnd hslm hsmem (hbase.trans hsba).symm
  have haslot : a ∈ slotAddrs g s := hsl_eq ▸ hasl
  have hsb : slab_of_addr g a = s.base := hbase.symm
  have hcu := free_chains_upd g t.st.live s a hg hchs haccs hlive haslot hsb hld
  have hcl1 : 1 ≤ countLive g t.st.live s.base := countLive_pos g t.st.live a s.base hlive hsb
  obtain ⟨hlsub, hasub, hchnd, hccnt⟩ := hchs
  obtain ⟨hll2, haa2, hcnt2⟩ := haccs
  have hw_emp : s ∉ t.st.list_empty := by
    intro hm
    have hz : s.active_obj_cnt = 0 := hez s hm
    omega
  have hwne : w ≠ .emp := by
    rintro rfl
    rcases hw with ⟨hc, hd⟩ | ⟨hc, hd⟩ | ⟨hc, hd⟩ | ⟨hc, hd⟩ | ⟨hc, hd⟩
    · cases hc
    · cases hc
    · cases hc
    · exact hw_emp hd
    · cases hc
  have hp : (allSlabs t.st).Perm (s :: allSlabs (drop_from t.st w s.base)) :=
    drop_pull t.st s.base w s hnd rfl hw
  have hL : allSlabs (drop_from { t.st with live := t.st.live.erase a } w s.base) = allSlabs (drop_from t.st w s.base) :=
    allSlabs_drop_erase t.st (t.st.live.erase a) w s.base
  have hp0 : (allSlabs { drop_from { t.st with live := t.st.live.erase a } w s.base with list_part := { s with local_head := a :: s.local_head, active_obj_cnt := sub32 s.active_obj_cnt 1 } :: (drop_from { t.st with live := t.st.live.erase a } w s.base).list_part }).Perm ({ s with local_head := a :: s.local_head, active_obj_cnt := sub32 s.active_obj_cnt 1 } :: allSlabs (drop_from { t.st with live := t.st.live.erase a } w s.base)) :=
    perm_pull2 _ _ _ _ _ _ _ (List.Perm.refl _)
  have hp' := hL ▸ hp0
  have hlv : (drop_from { t.st with live := t.st.live.erase a } w s.base).live = t.st.live.erase a := by
    rw [drop_from_live]
  have hmp : (drop_from { t.st with live := t.st.live.erase a } w s.base).mapped_pages = t.st.mapped_pages := by
    rw [drop_from_mapped]
  have hecP : (drop_from { t.st with live := t.st.live.erase a } w s.base).empty_slab_count = (drop_from { t.st with live := t.st.live.erase a } w s.base).list_empty.length % U32 := by
    rw [drop_from_esc, drop_from_le_ne _ _ _ hwne]
    exact hec0
  have hezP : ∀ x ∈ (drop_from { t.st with live := t.st.live.erase a } w s.base).list_empty, x.active_obj_cnt = 0 := by
    rw [drop_from_le_ne _ _ _ hwne]
    exact hez
  refine ⟨?_, ?_⟩
  · exact cacheInv_free_upd g t.st _ a s _ _ hg hp hp' hlv hmp hlive rfl
      (slotAddrs_update g s _ _ _ _) haslot hregs hcu.1 hcu.2 hmaps hecP hezP hinv
  · intro r hr
    exact rets_transfer g t.st _ s _ _ hp hp' (slotAddrs_update g s _ _ _ _) r (hrets r hr)

/-- Owner free dropping the slab's count to zero: the state after the
slab moves to the head of list_empty and the counter is bumped. -/
theorem owner_empty_state_inv (g : Geom) (a : Nat) (t : Trace) (w : SlabLoc) (s : Slab)
    (hg : GeomOk g) (hinv : CacheInv g t.st)
    (hrets : ∀ r ∈ t.rets, ∃ y ∈ allSlabs t.st, r ∈ slotAddrs g y)
    (hlive : a ∈ t.st.live)
    (hfs : find_slab t.st (slab_of_addr g a) = some (w, s))
    (hzero : sub32 s.active_obj_cnt 1 = 0) :
    CacheInv g { drop_from { t.st with live := t.st.live.erase a } w s.base with list_empty := { s with local_head := a :: s.local_head, active_obj_cnt := sub32 s.active_obj_cnt 1 } :: (drop_from { t.st with live := t.st.live.erase a } w s.base).list_empty, empty_slab_count := ((drop_from { t.st with live := t.st.live.erase a } w s.base).empty_slab_count + 1) % U32 } ∧
    ∀ r ∈ t.rets, ∃ y ∈ allSlabs { drop_from { t.st with live := t.st.live.erase a } w s.base with list_empty := { s with local_head := a :: s.local_head, active_obj_cnt := sub32 s.active_obj_cnt 1 } :: (drop_from { t.st with live := t.st.live.erase a } w s.base).list_empty, empty_slab_count := ((drop_from { t.st with live := t.st.live.erase a } w s.base).empty_slab_count + 1) % U32 }, r ∈ slotAddrs g y := by
  obtain ⟨hbase, hw⟩ := find_slab_spec _ _ _ _ hfs
  have hinv0 := hinv
  obtain ⟨hall, hnd, hld, hls, hec0, hez⟩ := hinv0
  have hsmem : s ∈ allSlabs t.st := loc_mem _ _ _ hw
  obtain ⟨hregs, hchs, haccs, hmaps⟩ := hall s hsmem
  obtain ⟨sl, hslm, hasl⟩ := hls a hlive
  obtain ⟨hregsl, hq1, hq2, hq3⟩ := hall sl hslm
  have hsba : slab_of_addr g a = sl.base := (slot_in_range g sl a hg hregsl hasl).2.2
  have hsl_eq : sl = s :=
    List.inj_on_of_nodup_map hnd hslm hsmem (hbase.trans hsba).symm
  have haslot : a ∈ slotAddrs g s := hsl_eq ▸ hasl
  have hsb : slab_of_addr g a = s.base := hbase.symm
  have hcu := free_chains_upd g t.st.live s a hg hchs haccs hlive haslot hsb hld
  have hcl1 : 1 ≤ countLive g t.st.live s.base := countLive_pos g t.st.live a s.base hlive hsb
  obtain ⟨hlsub, hasub, hchnd, hccnt⟩ := hchs
  obtain ⟨hll2, haa2, hcnt2⟩ := haccs
  have hw_emp : s ∉ t.st.list_empty := by
    intro hm
    have hz : s.active_obj_cnt = 0 := hez s hm
    omega
  have hwne : w ≠ .emp := by
    rintro rfl
    rcases hw with ⟨hc, hd⟩ | ⟨hc, hd⟩ | ⟨hc, hd⟩ | ⟨hc, hd⟩ | ⟨hc, hd⟩
    · cases hc
    · cases hc
    · cases hc
    · exact hw_emp hd
    · cases hc
  have hp : (allSlabs t.st).Perm (s :: allSlabs (drop_from t.st w s.base)) :=
    drop_pull t.st s.base w s hnd rfl hw
  have hL : allSlabs (drop_from { t.st with live := t.st.live.erase a } w s.base) = allSlabs (drop_from t.st w s.base) :=
    allSlabs_drop_erase t.st (t.st.live.erase a) w s.base
  have hp0 : (allSlabs { drop_from { t.st with live := t.st.live.erase a } w s.base with list_empty := { s with local_head := a :: s.local_head, active_obj_cnt := sub32 s.active_obj_cnt 1 } :: (drop_from { t.st with live := t.st.live.erase a } w s.base).list_empty, empty_slab_count := ((drop_from { t.st with live := t.st.live.erase a } w s.base).empty_slab_count + 1) % U32 }).Perm ({ s with local_head := a :: s.local_head, active_obj_cnt := sub32 s.active_obj_cnt 1 } :: allSlabs (drop_from { t.st with live := t.st.live.erase a } w s.base)) :=
    perm_pull4 _ _ _ _ _ _ _ (List.Perm.refl _)
  have hp' := hL ▸ hp0
  have hlv : (drop_from { t.st with live := t.st.live.erase a } w s.base).live = t.st.live.erase a := by
    rw [drop_from_live]
  have hmp : (drop_from { t.st with live := t.st.live.erase a } w s.base).mapped_pages = t.st.mapped_pages := by
    rw [drop_from_mapped]
  have hecP : ((drop_from { t.st with live := t.st.live.erase a } w s.base).empty_slab_count + 1) % U32 = ({ s with local_head := a :: s.local_head, active_obj_cnt := sub32 s.active_obj_cnt 1 } :: (drop_from { t.st with live := t.st.live.erase a } w s.base).list_empty).length % U32 := by
    rw [drop_from_esc, drop_from_le_ne _ _ _ hwne, List.length_cons]
    show (t.st.empty_slab_count + 1) % U32 = (t.st.list_empty.length + 1) % U32
    rw [hec0, mod_succ_u32]
  have hezP : ∀ x ∈ ({ s with local_head := a :: s.local_head, active_obj_cnt := sub32 s.active_obj_cnt 1 } :: (drop_from { t.st with live := t.st.live.erase a } w s.base).list_empty), x.active_obj_cnt = 0 := by
    intro x hx
    rcases List.mem_cons.mp hx with rfl | hx2
    · exact hzero
    · have hx3 : x ∈ (drop_from { t.st with live := t.st.live.erase a } w s.base).list_empty := hx2
      rw [drop_from_le_ne _ _ _ hwne] at hx3
      exact hez x hx3
  refine ⟨?_, ?_⟩
  · exact cacheInv_free_upd g t.st _ a s _ _ hg hp hp' hlv hmp hlive rfl
      (slotAddrs_update g s _ _ _ _) haslot hregs hcu.1 hcu.2 hmaps hecP hezP hinv
  · intro r hr
    exact rets_transfer g t.st _ s _ _ hp hp' (slotAddrs_update g s _ _ _ _) r (hrets r hr)

/-- Owner free leaving the slab where it is: local push through the
pointer, count rewritten in place. -/
theorem owner_stay_inv (g : Geom) (a : Nat) (t : Trace) (w : SlabLoc) (s : Slab)
    (hooks2 : List (Bool × Nat)) (hg : GeomOk g) (hinv : CacheInv g t.st)
    (hrets : ∀ r ∈ t.rets, ∃ y ∈ allSlabs t.st, r ∈ slotAddrs g y)
    (hlive : a ∈ t.st.live)
    (hfs : find_slab t.st (slab_of_addr g a) = some (w, s)) :
    TraceInv g { st := put_back { t.st with live := t.st.live.erase a } w s.base { s with local_head := a :: s.local_head, active_obj_cnt := sub32 s.active_obj_cnt 1 }, rets := t.rets, hooks := hooks2 } := by
  obtain ⟨hbase, hw⟩ := find_slab_spec _ _ _ _ hfs
  have hinv0 := hinv
  obtain ⟨hall, hnd, hld, hls, hec0, hez⟩ := hinv0
  have hsmem : s ∈ allSlabs t.st := loc_mem _ _ _ hw
  obtain ⟨hregs, hchs, haccs, hmaps⟩ := hall s hsmem
  obtain ⟨sl, hslm, hasl⟩ := hls a hlive
  obtain ⟨hregsl, hq1, hq2, hq3⟩ := hall sl hslm
  have hsba : slab_of_addr g a = sl.base := (slot_in_range g sl a hg hregsl hasl).2.2
  have hsl_eq : sl = s :=
    List.inj_on_of_nodup_map hnd hslm hsmem (hbase.trans hsba).symm
  have haslot : a ∈ slotAddrs g s := hsl_eq ▸ hasl
  have hsb : slab_of_addr g a = s.base := hbase.symm
  have hcu := free_chains_upd g t.st.live s a hg hchs haccs hlive haslot hsb hld
  have hcl1 : 1 ≤ countLive g t.st.live s.base := countLive_pos g t.st.live a s.base hlive hsb
  obtain ⟨hlsub, hasub, hchnd, hccnt⟩ := hchs
  obtain ⟨hll2, haa2, hcnt2⟩ := haccs
  have hw_emp : s ∉ t.st.list_empty := by
    intro hm
    have hz : s.active_obj_cnt = 0 := hez s hm
    omega
  have hwne : w ≠ .emp := by
    rintro rfl
    rcases hw with ⟨hc, hd⟩ | ⟨hc, hd⟩ | ⟨hc, hd⟩ | ⟨hc, hd⟩ | ⟨hc, hd⟩
    · cases hc
    · cases hc
    · cases hc
    · exact hw_emp hd
    · cases hc
  have hp : (allSlabs t.st).Perm (s :: allSlabs (drop_from t.st w s.base)) :=
    drop_pull t.st s.base w s hnd rfl hw
  have hp' : (allSlabs (put_back { t.st with live := t.st.live.erase a } w s.base { s with local_head := a :: s.local_head, active_obj_cnt := sub32 s.active_obj_cnt 1 })).Perm ({ s with local_head := a :: s.local_head, active_obj_cnt := sub32 s.active_obj_cnt 1 } :: allSlabs (drop_from t.st w s.base)) := by
    rw [allSlabs_put_back_erase]
    exact putback_perm t.st s.base w s _ hnd rfl hw
  have hecP : (put_back { t.st with live := t.st.live.erase a } w s.base { s with local_head := a :: s.local_head, active_obj_cnt := sub32 s.active_obj_cnt 1 }).empty_slab_count = (put_back { t.st with live := t.st.live.erase a } w s.base { s with local_head := a :: s.local_head, active_obj_cnt := sub32 s.active_obj_cnt 1 }).list_empty.length % U32 := by
    rw [put_back_esc, put_back_le_ne _ _ _ _ hwne]
    exact hec0
  have hezP : ∀ x ∈ (put_back { t.st with live := t.st.live.erase a } w s.base { s with local_head := a :: s.local_head, active_obj_cnt := sub32 s.active_obj_cnt 1 }).list_empty, x.active_obj_cnt = 0 := by
    rw [put_back_le_ne _ _ _ _ hwne]
    exact hez
  refine ⟨?_, ?_⟩
  · exact cacheInv_free_upd g t.st _ a s _ _ hg hp hp'
      (by rw [put_back_live]) (by rw [put_back_mapped]) hlive rfl
      (slotAddrs_update g s _ _ _ _) haslot hregs hcu.1 hcu.2 hmaps hecP hezP hinv
  · intro r hr
    exact rets_transfer g t.st _ s _ _ hp hp' (slotAddrs_update g s _ _ _ _) r (hrets r hr)
set_option maxHeartbeats 1000000

/-- thread_safe_free on the owner thread preserves the trace invariant
in every non-faulting branch. -/
theorem thread_safe_free_inv (g : Geom) (a : Nat) (t : Trace)
    (hg : GeomOk g) (hinv : CacheInv g t.st)
    (hrets : ∀ r ∈ t.rets, ∃ y ∈ allSlabs t.st, r ∈ slotAddrs g y) :
    ∀ t1, thread_safe_free g a t = .ok t1 → TraceInv g t1 := by
  intro t1 h
  unfold thread_safe_free at h
  by_cases hlive : a ∈ t.st.live
  · rw [if_pos hlive] at h
    cases hfs : find_slab t.st (slab_of_addr g a) with
    | none =>
      rw [hfs] at h
      exact Outcome.noConfusion h
    | some ws =>
      obtain ⟨w, s⟩ := ws
      rw [hfs] at h
      set hk := t.hooks ++ (if g.dest = true then [(false, a)] else []) with hhk
      simp only [] at h
      split at h
      next howner =>
        cases w with
        | act =>
          exact outcome_ok_inv g _ t1 (owner_act_inv g a t s _ hg hinv hrets hlive hfs) h
        | par =>
          simp only [] at h
          split at h
          next hfull =>
            exact outcome_ok_inv g _ t1
              (owner_move_partial_inv g a t SlabLoc.par s _ hg hinv hrets hlive hfs) h
          next hfull =>
            split at h
            next hzero =>
              split at h
              next hhoard =>
                refine outcome_ok_inv g _ t1 ⟨?_, ?_⟩ h
                · exact rsg_loop_inv g hg _ _
                    (owner_empty_state_inv g a t SlabLoc.par s hg hinv hrets hlive hfs hzero).1
                · intro r hr
                  exact rsg_loop_slots g _ _ r
                    ((owner_empty_state_inv g a t SlabLoc.par s hg hinv hrets hlive hfs hzero).2 r hr)
              next hhoard =>
                exact outcome_ok_inv g _ t1
                  ⟨(owner_empty_state_inv g a t SlabLoc.par s hg hinv hrets hlive hfs hzero).1,
                   (owner_empty_state_inv g a t SlabLoc.par s hg hinv hrets hlive hfs hzero).2⟩ h
            next hzero =>
              exact outcome_ok_inv g _ t1
                (owner_stay_inv g a t SlabLoc.par s _ hg hinv hrets hlive hfs) h
        | ful =>
          simp only [] at h
          split at h
          next hfull =>
            exact outcome_ok_inv g _ t1
              (owner_move_partial_inv g a t SlabLoc.ful s _ hg hinv hrets hlive hfs) h
          next hfull =>
            split at h
            next hzero =>
              split at h
              next hhoard =>
                refine outcome_ok_inv g _ t1 ⟨?_, ?_⟩ h
                · exact rsg_loop_inv g hg _ _
                    (owner_empty_state_inv g a t SlabLoc.ful s hg hinv hrets hlive hfs hzero).1
                · intro r hr
                  exact rsg_loop_slots g _ _ r
                    ((owner_empty_state_inv g a t SlabLoc.ful s hg hinv hrets hlive hfs hzero).2 r hr)
              next hhoard =>
                exact outcome_ok_inv g _ t1
                  ⟨(owner_empty_state_inv g a t SlabLoc.ful s hg hinv hrets hlive hfs hzero).1,
                   (owner_empty_state_inv g a t SlabLoc.ful s hg hinv hrets hlive hfs hzero).2⟩ h
            next hzero =>
              exact outcome_ok_inv g _ t1
                (owner_stay_inv g a t SlabLoc.ful s _ hg hinv hrets hlive hfs) h
        | emp =>
          simp only [] at h
          split at h
          next hfull =>
            exact outcome_ok_inv g _ t1
              (owner_move_partial_inv g a t SlabLoc.emp s _ hg hinv hrets hlive hfs) h
          next hfull =>
            split at h
            next hzero =>
              split at h
              next hhoard =>
                refine outcome_ok_inv g _ t1 ⟨?_, ?_⟩ h
                · exact rsg_loop_inv g hg _ _
                    (owner_empty_state_inv g a t SlabLoc.emp s hg hinv hrets hlive hfs hzero).1
                · intro r hr
                  exact rsg_loop_slots g _ _ r
                    ((owner_empty_state_inv g a t SlabLoc.emp s hg hinv hrets hlive hfs hzero).2 r hr)
              next hhoard =>
                exact outcome_ok_inv g _ t1
                  ⟨(owner_empty_state_inv g a t SlabLoc.emp s hg hinv hrets hlive hfs hzero).1,
                   (owner_empty_state_inv g a t SlabLoc.emp s hg hinv hrets hlive hfs hzero).2⟩ h
            next hzero =>
              exact outcome_ok_inv g _ t1
                (owner_stay_inv g a t SlabLoc.emp s _ hg hinv hrets hlive hfs) h
        | glob =>
          simp only [] at h
          split at h
          next hfull =>
            exact outcome_ok_inv g _ t1
              (owner_move_partial_inv g a t SlabLoc.glob s _ hg hinv hrets hlive hfs) h
          next hfull =>
            split at h
            next hzero =>
              split at h
              next hhoard =>
                refine outcome_ok_inv g _ t1 ⟨?_, ?_⟩ h
                · exact rsg_loop_inv g hg _ _
                    (owner_empty_state_inv g a t SlabLoc.glob s hg hinv hrets hlive hfs hzero).1
                · intro r hr
                  exact rsg_loop_slots g _ _ r
                    ((owner_empty_state_inv g a t SlabLoc.glob s hg hinv hrets hlive hfs hzero).2 r hr)
              next hhoard =>
                exact outcome_ok_inv g _ t1
                  ⟨(owner_empty_state_inv g a t SlabLoc.glob s hg hinv hrets hlive hfs hzero).1,
                   (owner_empty_state_inv g a t SlabLoc.glob s hg hinv hrets hlive hfs hzero).2⟩ h
            next hzero =>
              exact outcome_ok_inv g _ t1
                (owner_stay_inv g a t SlabLoc.glob s _ hg hinv hrets hlive hfs) h
      next howner =>
        exact outcome_ok_inv g _ t1 (atomic_push_inv g a t w s _ hg hinv hrets hlive hfs) h
  · rw [if_neg hlive] at h
    exact Outcome.noConfusion h

/-- thread_safe_free from a foreign thread preserves the trace
invariant: the owner test fails and the object is CAS-pushed. -/
theorem remote_free_inv (g : Geom) (a : Nat) (t : Trace)
    (hg : GeomOk g) (hinv : CacheInv g t.st)
    (hrets : ∀ r ∈ t.rets, ∃ y ∈ allSlabs t.st, r ∈ slotAddrs g y) :
    ∀ t1, remote_free g a t = .ok t1 → TraceInv g t1 := by
  intro t1 h
  unfold remote_free at h
  by_cases hlive : a ∈ t.st.live
  · rw [if_pos hlive] at h
    cases hfs : find_slab t.st (slab_of_addr g a) with
    | none =>
      rw [hfs] at h
      exact Outcome.noConfusion h
    | some ws =>
      obtain ⟨w, s⟩ := ws
      rw [hfs] at h
      exact outcome_ok_inv g _ t1 (atomic_push_inv g a t w s _ hg hinv hrets hlive hfs) h
  · rw [if_neg hlive] at h
    exact Outcome.noConfusion h
/-- pop-and-install returns exactly one address and fires the constructor
hook on it exactly when the cache has one. -/
theorem pop_install_shape (g : Geom) (t : Trace) (s : Slab) :
    ∀ t1, pop_install g t s = .ok t1 →
      ∃ o, t1.rets = t.rets ++ [o] ∧
        t1.hooks = t.hooks ++ (if g.cons then [(true, o)] else []) := by
  intro t1 h
  cases hl : s.local_head with
  | nil =>
    rw [pop_install, hl] at h
    cases h
  | cons o rest =>
    rw [pop_install, hl] at h
    cases h
    exact ⟨o, rfl, rfl⟩

theorem fetch_global_shape (g : Geom) (os : Option Nat) (t : Trace) :
    ∀ t1, fetch_global_slab g os t = .ok t1 →
      ∃ o, t1.rets = t.rets ++ [o] ∧
        t1.hooks = t.hooks ++ (if g.cons then [(true, o)] else []) := by
  intro t1 h
  unfold fetch_global_slab at h
  cases hge : t.st.global_empty with
  | cons f rest =>
    rw [hge] at h
    exact pop_install_shape g { t with st := { t.st with global_empty := rest } }
      { f with owner := true } t1 h
  | nil =>
    rw [hge] at h
    cases os with
    | none => exact Outcome.noConfusion h
    | some b =>
      by_cases hok : mmap_ok g t.st b = true
      · simp only [hok, if_true, eq_self_iff_true] at h
        cases hge2 : (allocate_free_slab g b t.st).global_empty with
        | nil =>
          rw [hge2] at h
          exact Outcome.noConfusion h
        | cons f rest =>
          rw [hge2] at h
          exact pop_install_shape g
            { t with st := { allocate_free_slab g b t.st with global_empty := rest } }
            { f with owner := true } t1 h
      · simp only [Bool.not_eq_true] at hok
        simp only [hok, Bool.false_eq_true, if_false] at h
        exact Outcome.noConfusion h

theorem scavenge_shape (g : Geom) (os : Option Nat) (t : Trace) :
    ∀ t1, scavenge_phase g os t = .ok t1 →
      ∃ o, t1.rets = t.rets ++ [o] ∧
        t1.hooks = t.hooks ++ (if g.cons then [(true, o)] else []) := by
  intro t1 h
  unfold scavenge_phase at h
  by_cases hcd : 0 < t.st.scavenge_cooldown
  · rw [if_pos hcd] at h
    exact fetch_global_shape g os
      { t with st := { t.st with scavenge_cooldown := t.st.scavenge_cooldown - 1 } } t1 h
  · rw [if_neg hcd] at h
    cases hf : (t.st.list_full.reverse.take 64).find? (fun s => !s.atomic_head.isEmpty) with
    | some s =>
      rw [hf] at h
      exact pop_install_shape g
        { t with st := { t.st with list_full := removeFirst t.st.list_full s.base, scavenge_cooldown := 0 } }
        (reclaim_remote s).2 t1 h
    | none =>
      rw [hf] at h
      by_cases hfe : t.st.list_full.isEmpty = true
      · simp only [hfe, if_true, eq_self_iff_true] at h
        exact fetch_global_shape g os t t1 h
      · simp only [Bool.not_eq_true] at hfe
        simp only [hfe, Bool.false_eq_true, if_false] at h
        exact fetch_global_shape g os
          { t with st := { t.st with scavenge_cooldown := 64 } } t1 h

theorem alloc_miss_shape (g : Geom) (os : Option Nat) (t : Trace) :
    ∀ t1, alloc_miss g os t = .ok t1 →
      ∃ o, t1.rets = t.rets ++ [o] ∧
        t1.hooks = t.hooks ++ (if g.cons then [(true, o)] else []) := by
  intro t1 h
  unfold alloc_miss at h
  cases hle : t.st.list_empty with
  | cons s rest =>
    rw [hle] at h
    exact pop_install_shape g
      { t with st := { t.st with list_empty := rest, empty_slab_count := sub32 t.st.empty_slab_count 1 } }
      s t1 h
  | nil =>
    rw [hle] at h
    cases hlp : t.st.list_part with
    | nil =>
      rw [hlp] at h
      exact scavenge_shape g os t t1 h
    | cons s rest =>
      rw [hlp] at h
      by_cases hloc : s.local_head.isEmpty = true
      · simp only [hloc, if_true, eq_self_iff_true] at h
        cases hatc : s.atomic_head with
        | nil =>
          rw [hatc] at h
          exact Outcome.noConfusion h
        | cons a0 tl =>
          rw [hatc] at h
          exact pop_install_shape g { t with st := { t.st with list_part := rest } }
            (reclaim_remote s).2 t1 h
      · simp only [Bool.not_eq_true] at hloc
        simp only [hloc, Bool.false_eq_true, if_false] at h
        exact pop_install_shape g { t with st := { t.st with list_part := rest } } s t1 h

/-- Every successful allocation returns exactly one fresh address and
fires the constructor hook on it exactly when the cache has one,
regardless of whether a destructor is installed. -/
theorem thread_safe_alloc_shape (g : Geom) (os : Option Nat) (t : Trace) :
    ∀ t1, thread_safe_alloc g os t = .ok t1 →
      ∃ o, t1.rets = t.rets ++ [o] ∧
        t1.hooks = t.hooks ++ (if g.cons then [(true, o)] else []) := by
  intro t1 h
  unfold thread_safe_alloc at h
  cases hA : t.st.active with
  | none =>
    rw [hA] at h
    exact alloc_miss_shape g os t t1 h
  | some s =>
    rw [hA] at h
    by_cases hloc : s.local_head.isEmpty = true
    · simp only [hloc, if_true, eq_self_iff_true] at h
      exact alloc_miss_shape g os
        { t with st := { t.st with active := none, list_full := s :: t.st.list_full } } t1 h
    · simp only [Bool.not_eq_true] at hloc
      simp only [hloc, Bool.false_eq_true, if_false] at h
      exact pop_install_shape g { t with st := { t.st with active := none } } s t1 h

/-- One interleaving step preserves the trace invariant. -/
theorem step_inv (g : Geom) (e : Ev) (t : Trace) (hg : GeomOk g) (hinv : TraceInv g t) :
    ∀ t1, step g e t = .ok t1 → TraceInv g t1 := by
  intro t1 h
  obtain ⟨hci, hrets⟩ := hinv
  cases e with
  | alloc os => exact thread_safe_alloc_inv g os t hg hci hrets t1 h
  | freeO a => exact thread_safe_free_inv g a t hg hci hrets t1 h
  | freeR a => exact remote_free_inv g a t hg hci hrets t1 h

/-- The trace invariant is preserved along any successful run. -/
theorem run_inv (g : Geom) (hg : GeomOk g) :
    ∀ (evs : List Ev) (t : Trace), TraceInv g t →
      ∀ t1, run g t evs = .ok t1 → TraceInv g t1 := by
  intro evs
  induction evs with
  | nil =>
    intro t hinv t1 h
    cases h
    exact hinv
  | cons e es ih =>
    intro t hinv t1 h
    unfold run at h
    cases hs : step g e t with
    | ok t2 =>
      rw [hs] at h
      exact ih t2 (step_inv g e t hg hinv t2 hs) t1 h
    | abort =>
      rw [hs] at h
      exact Outcome.noConfusion h
    | ub =>
      rw [hs] at h
      exact Outcome.noConfusion h

/-- The freshly created cache context satisfies the trace invariant. -/
theorem init_trace_inv (g : Geom) : TraceInv g init_trace := by
  refine ⟨⟨?_, ?_, ?_, ?_, ?_, ?_⟩, ?_⟩
  · intro s hs
    cases hs
  · exact List.nodup_nil
  · exact List.nodup_nil
  · intro a ha
    cases ha
  · rfl
  · intro s hs
    cases hs
  · intro r hr
    cases hr

/-- Any two distinct simultaneously live addresses are at least one
object apart. -/
theorem live_sep (g : Geom) (t1 : Trace) (hg : GeomOk g) (hinv : TraceInv g t1) :
    ∀ a ∈ t1.st.live, ∀ b ∈ t1.st.live, a ≠ b → g.obj_size ≤ Nat.dist a b := by
  obtain ⟨⟨hall, hnd, hld, hls, he1, he2⟩, hr⟩ := hinv
  intro a ha b hb hne
  obtain ⟨s1, hm1, ha1⟩ := hls a ha
  obtain ⟨s2, hm2, hb2⟩ := hls b hb
  obtain ⟨hr1, hx1, hx2, hx3⟩ := hall s1 hm1
  obtain ⟨hr2, hy1, hy2, hy3⟩ := hall s2 hm2
  refine slot_separation g s1 s2 a b hg hr1 hr2 ?_ ha1 hb2 hne
  intro hbe
  have hse : s1 = s2 := List.inj_on_of_nodup_map hnd hm1 hm2 hbe
  rw [hse]

/-- Every successful owner free leaves the log of returned addresses
unchanged and fires the destructor hook on the freed address exactly when
the cache has one. -/
theorem thread_safe_free_shape (g : Geom) (a : Nat) (t : Trace) :
    ∀ t1, thread_safe_free g a t = .ok t1 →
      t1.rets = t.rets ∧
      t1.hooks = t.hooks ++ (if g.dest then [(false, a)] else []) := by
  intro t1 h
  unfold thread_safe_free at h
  by_cases hm : a ∈ t.st.live
  · rw [if_pos hm] at h
    cases hfs : find_slab t.st (slab_of_addr g a) with
    | none =>
      rw [hfs] at h
      exact Outcome.noConfusion h
    | some ws =>
      obtain ⟨w, s⟩ := ws
      rw [hfs] at h
      set hk := t.hooks ++ (if g.dest = true then [(false, a)] else []) with hhk
      simp only [] at h
      split at h
      next howner =>
        cases w with
        | act =>
          simp only [] at h
          cases h
          exact ⟨rfl, rfl⟩
        | par =>
          simp only [] at h
          split at h
          next => cases h; exact ⟨rfl, rfl⟩
          next =>
            split at h
            next =>
              split at h
              next => cases h; exact ⟨rfl, rfl⟩
              next => cases h; exact ⟨rfl, rfl⟩
            next => cases h; exact ⟨rfl, rfl⟩
        | ful =>
          simp only [] at h
          split at h
          next => cases h; exact ⟨rfl, rfl⟩
          next =>
            split at h
            next =>
              split at h
              next => cases h; exact ⟨rfl, rfl⟩
              next => cases h; exact ⟨rfl, rfl⟩
            next => cases h; exact ⟨rfl, rfl⟩
        | emp =>
          simp only [] at h
          split at h
          next => cases h; exact ⟨rfl, rfl⟩
          next =>
            split at h
            next =>
              split at h
              next => cases h; exact ⟨rfl, rfl⟩
              next => cases h; exact ⟨rfl, rfl⟩
            next => cases h; exact ⟨rfl, rfl⟩
        | glob =>
          simp only [] at h
          split at h
          next => cases h; exact ⟨rfl, rfl⟩
          next =>
            split at h
            next =>
              split at h
              next => cases h; exact ⟨rfl, rfl⟩
              next => cases h; exact ⟨rfl, rfl⟩
            next => cases h; exact ⟨rfl, rfl⟩
      next howner =>
        cases h
        exact ⟨rfl, rfl⟩
  · rw [if_neg hm] at h
    exact Outcome.noConfusion h

/-- The while loop of return_slabs_to_global moves exactly n slabs (when n
are available) from the local empty list to the global pool, and every slab
of the resulting pool was already there or has its owner stamp cleared. -/
theorem rsg_loop_len (n : Nat) : ∀ st : State, n ≤ st.list_empty.length →
    (rsg_loop n st).list_empty.length = st.list_empty.length - n ∧
    (rsg_loop n st).global_empty.length = st.global_empty.length + n ∧
    ∀ r ∈ (rsg_loop n st).global_empty, r ∈ st.global_empty ∨ r.owner = false := by
  induction n with
  | zero =>
    intro st h
    exact ⟨rfl, rfl, fun r hr => Or.inl hr⟩
  | succ n ih =>
    intro st h
    cases hle : st.list_empty with
    | nil =>
      rw [hle] at h
      exact absurd h (Nat.not_succ_le_zero n)
    | cons s0 rest =>
      have hst : st = { st with list_empty := s0 :: rest } := by rw [← hle]
      have hstep : rsg_loop (n + 1) st = rsg_loop n { st with list_empty := rest, global_empty := { s0 with owner := false } :: st.global_empty, empty_slab_count := sub32 st.empty_slab_count 1 } := by
        conv_lhs => rw [hst]
        rfl
      have hrn : n ≤ rest.length := by
        rw [hle] at h
        exact Nat.le_of_succ_le_succ h
      obtain ⟨h1, h2, h3⟩ := ih { st with list_empty := rest, global_empty := { s0 with owner := false } :: st.global_empty, empty_slab_count := sub32 st.empty_slab_count 1 } hrn
      refine ⟨?_, ?_, ?_⟩
      · rw [hstep, h1]
        show rest.length - n = (s0 :: rest).length - (n + 1)
        rw [List.length_cons]
        omega
      · rw [hstep, h2]
        show ({ s0 with owner := false } :: st.global_empty).length + n = st.global_empty.length + (n + 1)
        rw [List.length_cons]
        omega
      · intro r hrg
        rw [hstep] at hrg
        rcases h3 r hrg with hin | hfo
        · rcases List.mem_cons.mp hin with he | hin2
          · right
            rw [he]
          · exact Or.inl hin2
        · exact Or.inr hfo

/-- return_slabs_to_global returns empty_slab_count / 2 local empty slabs
to the global pool, each with its owner stamp cleared. -/
theorem return_slabs_spec (st : State) (h : st.empty_slab_count / 2 ≤ st.list_empty.length) :
    (return_slabs_to_global st).list_empty.length = st.list_empty.length - st.empty_slab_count / 2 ∧
    (return_slabs_to_global st).global_empty.length = st.global_empty.length + st.empty_slab_count / 2 ∧
    ∀ r ∈ (return_slabs_to_global st).global_empty, r ∈ st.global_empty ∨ r.owner = false :=
  rsg_loop_len (st.empty_slab_count / 2) st h

/-- C1: every pointer returned by any allocation run on a constructed
cache lies in the slot region of a slab of that run's final state, and
the mask addr & ~(slab_bytes - 1) — here addr - addr % page_size —
recovers that slab's header address, which sits on a slab_bytes
boundary. -/
theorem C1_returned_pointer_mask_recovers_slab (r : Nat) (c d : Bool)
    (hr : 0 < r) (hru : r ≤ 67108864) (evs : List Ev) (t1 : Trace)
    (hrun : run (mkCache r c d) init_trace evs = .ok t1) :
    ∀ p ∈ t1.rets, ∃ s ∈ allSlabs t1.st,
      s.base = slab_of_addr (mkCache r c d) p ∧
      s.base % (mkCache r c d).page_size = 0 ∧
      p ∈ slotAddrs (mkCache r c d) s := by
  have hg := mkCache_ok r c d hr hru
  have hinv := run_inv (mkCache r c d) hg evs init_trace
    (init_trace_inv (mkCache r c d)) t1 hrun
  obtain ⟨⟨hall, hnd, hld, hls, h5, h6⟩, hrets⟩ := hinv
  intro p hp
  obtain ⟨s, hs, hps⟩ := hrets p hp
  obtain ⟨hreg, hch, hacc, hmap⟩ := hall s hs
  exact ⟨s, hs, ((slot_in_range (mkCache r c d) s p hg hreg hps).2.2).symm, hreg.1, hps⟩

theorem C1_witness :
    (0 < 262144 ∧ 262144 ≤ 67108864 ∧
      run (mkCache 262144 false false) init_trace c9evs = .ok c9tr) ∧
    ∀ p ∈ c9tr.rets, ∃ s ∈ allSlabs c9tr.st,
      s.base = slab_of_addr (mkCache 262144 false false) p ∧
      s.base % (mkCache 262144 false false).page_size = 0 ∧
      p ∈ slotAddrs (mkCache 262144 false false) s :=
  ⟨⟨by decide, by decide, by decide⟩,
   C1_returned_pointer_mask_recovers_slab 262144 false false (by decide) (by decide)
     c9evs c9tr (by decide)⟩

/-- C2 (amended): whenever the cache has a constructor hook — with or
without a destructor — every successful allocation fires it exactly
once, on exactly the address being returned, and slab initialization
never runs the constructor; whenever the cache has a destructor hook,
every successful free fires it exactly once, on exactly the address
being freed. -/
theorem C2_ctor_on_alloc_dtor_on_free (g g' : Geom) (os : Option Nat) (a : Nat) (t t1 u u1 : Trace) (hc : g.cons = true) (hd : g'.dest = true) (ha : thread_safe_alloc g os t = .ok t1) (hf : thread_safe_free g' a u = .ok u1) :
    (∃ o, t1.rets = t.rets ++ [o] ∧ t1.hooks = t.hooks ++ [(true, o)]) ∧
    (u1.rets = u.rets ∧ u1.hooks = u.hooks ++ [(false, a)]) := by
  constructor
  · obtain ⟨o, hr2, hh⟩ := thread_safe_alloc_shape g os t t1 ha
    refine ⟨o, hr2, ?_⟩
    rw [hh, hc]
    simp
  · obtain ⟨hr2, hh⟩ := thread_safe_free_shape g' a u u1 hf
    refine ⟨hr2, ?_⟩
    rw [hh, hd]
    simp

theorem C2_witness :
    (g18d.cons = true ∧ g18d.dest = true ∧
     thread_safe_alloc g18d (some 4194304) init_trace = .ok c2ftr ∧
     thread_safe_free g18d 4194368 c2ftr = .ok c2ftr2) ∧
    (∃ o, c2ftr.rets = init_trace.rets ++ [o] ∧
       c2ftr.hooks = init_trace.hooks ++ [(true, o)]) ∧
    (c2ftr2.rets = c2ftr.rets ∧ c2ftr2.hooks = c2ftr.hooks ++ [(false, 4194368)]) :=
  ⟨⟨rfl, rfl, by decide, by decide⟩,
   C2_ctor_on_alloc_dtor_on_free g18d g18d (some 4194304) 4194368
     init_trace c2ftr c2ftr c2ftr2 rfl rfl (by decide) (by decide)⟩

/-- C2 counterexample: on a cache with a constructor and no destructor,
the first allocation maps a 15-object chunk yet records exactly one
constructor invocation — on the returned address, at allocation time —
not one per slot at slab initialization. -/
theorem C2_counterexample_ctor_at_alloc_without_dtor :
    g18c.cons = true ∧ g18c.dest = false ∧ g18c.obj_cnt = 15 ∧
    hooksOf (run g18c init_trace [Ev.alloc (some 4194304)]) = [(true, 4194368)] := by
  exact ⟨rfl, rfl, by decide, by decide⟩

/-- C6: every owner free that empties a partial slab and lifts the local
empty-slab count above MAX_LOCAL_EMPTY_SLABS = 32 moves half of the local
empty slabs (post-free count divided by two, so at least 16) to the global
pool, each mover with its owner stamp cleared. -/
theorem C6_hoarding_control_returns_half (g : Geom) (a : Nat) (t : Trace) (s : Slab) (hmem : a ∈ t.st.live) (hfs : find_slab t.st (slab_of_addr g a) = some (SlabLoc.par, s)) (hown : s.owner = true) (hoc : 1 < g.obj_cnt) (hz : sub32 s.active_obj_cnt 1 = 0) (hesc : t.st.empty_slab_count = t.st.list_empty.length) (hlt : t.st.list_empty.length + 1 < U32) (hover : 32 < t.st.list_empty.length + 1) :
    ∃ t1, thread_safe_free g a t = .ok t1 ∧
      t1.st.global_empty.length = t.st.global_empty.length + (t.st.list_empty.length + 1) / 2 ∧
      t1.st.list_empty.length = t.st.list_empty.length + 1 - (t.st.list_empty.length + 1) / 2 ∧
      (∀ r ∈ t1.st.global_empty, r ∈ t.st.global_empty ∨ r.owner = false) ∧
      16 ≤ (t.st.list_empty.length + 1) / 2 := by
  have hmod : (t.st.empty_slab_count + 1) % U32 = t.st.list_empty.length + 1 := by
    rw [hesc]
    exact Nat.mod_eq_of_lt hlt
  have hnf : ¬ (sub32 s.active_obj_cnt 1 = g.obj_cnt - 1) := by
    rw [hz]
    omega
  have hov2 : 32 < (t.st.empty_slab_count + 1) % U32 := by
    rw [hmod]
    exact hover
  have heq : thread_safe_free g a t = .ok { st := return_slabs_to_global { t.st with live := t.st.live.erase a, list_part := removeFirst t.st.list_part s.base, list_empty := { s with local_head := a :: s.local_head, active_obj_cnt := sub32 s.active_obj_cnt 1 } :: t.st.list_empty, empty_slab_count := (t.st.empty_slab_count + 1) % U32 }, rets := t.rets, hooks := t.hooks ++ (if g.dest then [(false, a)] else []) } := by
    unfold thread_safe_free
    rw [if_pos hmem]
    simp only []
    rw [hfs]
    simp only []
    rw [if_pos hown]
    simp only [drop_from]
    rw [if_neg hnf]
    rw [if_pos hz]
    rw [if_pos hov2]
  obtain ⟨hL, hG, hO⟩ := return_slabs_spec { t.st with live := t.st.live.erase a, list_part := removeFirst t.st.list_part s.base, list_empty := { s with local_head := a :: s.local_head, active_obj_cnt := sub32 s.active_obj_cnt 1 } :: t.st.list_empty, empty_slab_count := (t.st.empty_slab_count + 1) % U32 } (by show ((t.st.empty_slab_count + 1) % U32) / 2 ≤ ({ s with local_head := a :: s.local_head, active_obj_cnt := sub32 s.active_obj_cnt 1 } :: t.st.list_empty).length; rw [hmod, List.length_cons]; omega)
  refine ⟨_, heq, ?_, ?_, ?_, by omega⟩
  · rw [show ({ st := return_slabs_to_global { t.st with live := t.st.live.erase a, list_part := removeFirst t.st.list_part s.base, list_empty := { s with local_head := a :: s.local_head, active_obj_cnt := sub32 s.active_obj_cnt 1 } :: t.st.list_empty, empty_slab_count := (t.st.empty_slab_count + 1) % U32 }, rets := t.rets, hooks := t.hooks ++ (if g.dest then [(false, a)] else []) } : Trace).st = return_slabs_to_global { t.st with live := t.st.live.erase a, list_part := removeFirst t.st.list_part s.base, list_empty := { s with local_head := a :: s.local_head, active_obj_cnt := sub32 s.active_obj_cnt 1 } :: t.st.list_empty, empty_slab_count := (t.st.empty_slab_count + 1) % U32 } from rfl, hG]
    show t.st.global_empty.length + ((t.st.empty_slab_count + 1) % U32) / 2 = t.st.global_empty.length + (t.st.list_empty.length + 1) / 2
    rw [hmod]
  · rw [show ({ st := return_slabs_to_global { t.st with live := t.st.live.erase a, list_part := removeFirst t.st.list_part s.base, list_empty := { s with local_head := a :: s.local_head, active_obj_cnt := sub32 s.active_obj_cnt 1 } :: t.st.list_empty, empty_slab_count := (t.st.empty_slab_count + 1) % U32 }, rets := t.rets, hooks := t.hooks ++ (if g.dest then [(false, a)] else []) } : Trace).st = return_slabs_to_global { t.st with live := t.st.live.erase a, list_part := removeFirst t.st.list_part s.base, list_empty := { s with local_head := a :: s.local_head, active_obj_cnt := sub32 s.active_obj_cnt 1 } :: t.st.list_empty, empty_slab_count := (t.st.empty_slab_count + 1) % U32 } from rfl, hL]
    show ({ s with local_head := a :: s.local_head, active_obj_cnt := sub32 s.active_obj_cnt 1 } :: t.st.list_empty).length - ((t.st.empty_slab_count + 1) % U32) / 2 = t.st.list_empty.length + 1 - (t.st.list_empty.length + 1) / 2
    rw [hmod, List.length_cons]
  · intro r hr
    exact hO r hr

theorem C6_witness :
    (4194304 * 34 + 64 ∈ c6tr.st.live ∧
     find_slab c6tr.st (slab_of_addr g18 (4194304 * 34 + 64)) = some (SlabLoc.par, c6X) ∧
     c6X.owner = true ∧ 1 < g18.obj_cnt ∧ sub32 c6X.active_obj_cnt 1 = 0 ∧
     c6tr.st.empty_slab_count = c6tr.st.list_empty.length ∧
     c6tr.st.list_empty.length + 1 < U32 ∧ 32 < c6tr.st.list_empty.length + 1) ∧
    ∃ t1, thread_safe_free g18 (4194304 * 34 + 64) c6tr = .ok t1 ∧
      t1.st.global_empty.length = c6tr.st.global_empty.length + (c6tr.st.list_empty.length + 1) / 2 ∧
      t1.st.list_empty.length = c6tr.st.list_empty.length + 1 - (c6tr.st.list_empty.length + 1) / 2 ∧
      (∀ r ∈ t1.st.global_empty, r ∈ c6tr.st.global_empty ∨ r.owner = false) ∧
      16 ≤ (c6tr.st.list_empty.length + 1) / 2 :=
  ⟨⟨by decide, by decide, by decide, by decide, by decide, by decide, by decide, by decide⟩,
   C6_hoarding_control_returns_half g18 (4194304 * 34 + 64) c6tr c6X
     (by decide) (by decide) (by decide) (by decide) (by decide) (by decide)
     (by decide) (by decide)⟩

/-- C8: for every positive requested size in the supported range, the
stored obj_size is the least power of two at least
max(requested_size, MIN_OBJECT_SIZE = 16): it is a power of two, at
least 16, at least the request, and no larger than any power of two
that accommodates the request. -/
theorem C8_objsize_least_pow2_of_max16 (r : Nat) (c d : Bool)
    (hr : 0 < r) (hru : r ≤ 1073741824) :
    (∃ k, (mkCache r c d).obj_size = 2 ^ k) ∧
    16 ≤ (mkCache r c d).obj_size ∧
    r ≤ (mkCache r c d).obj_size ∧
    (∀ m, max r 16 ≤ 2 ^ m → (mkCache r c d).obj_size ≤ 2 ^ m) := by
  have hru' : r < U32 := by unfold U32; omega
  have h1 : (mkCache r c d).obj_size = pow2ceil (max r 16) := by
    show pow2ceil (if max (r % U32) 16 < 8 then 8 else max (r % U32) 16) = pow2ceil (max r 16)
    rw [Nat.mod_eq_of_lt hru']
    have hnl : ¬ (max r 16 < 8) := by
      have := le_max_right r 16
      omega
    rw [if_neg hnl]
  rw [h1]
  refine ⟨⟨Nat.log 2 (max r 16 - 1) + 1, pow2ceil_eq _⟩, ?_, ?_, ?_⟩
  · have h2 := le_pow2ceil (max r 16)
    have h3 := le_max_right r 16
    omega
  · have h2 := le_pow2ceil (max r 16)
    have h3 := le_max_left r 16
    omega
  · intro m hm
    refine pow2ceil_le (max r 16) m ?_ hm
    have h3 := le_max_right r 16
    omega

theorem C8_witness :
    ((0 < 73 ∧ 73 ≤ 1073741824) ∧
      ((∃ k, (mkCache 73 false false).obj_size = 2 ^ k) ∧
       16 ≤ (mkCache 73 false false).obj_size ∧
       73 ≤ (mkCache 73 false false).obj_size ∧
       (∀ m, max 73 16 ≤ 2 ^ m → (mkCache 73 false false).obj_size ≤ 2 ^ m))) ∧
    (mkCache 73 false false).obj_size = 128 :=
  ⟨⟨⟨by decide, by decide⟩,
    C8_objsize_least_pow2_of_max16 73 false false (by decide) (by decide)⟩, by decide⟩

/-- C10: the allocator aborts on MAP_FAILED and returns an object on an
aligned chunk, but a successful page-aligned mmap reply that is not
slab-aligned (legal for the OS) initializes zero slabs of the
one-slab-per-chunk cache; fetch_global_slab then takes the list sentinel
without re-checking the pool and dereferences a null local freelist —
undefined behaviour instead of an object or an abort. -/
theorem C10_unaligned_chunk_faults :
    g18.pages_per_chunk = 1 ∧
    mmap_ok g18 init_state 4198400 = true ∧
    thread_safe_alloc g18 (some 4198400) init_trace = .ub ∧
    thread_safe_alloc g18 none init_trace = .abort ∧
    (∃ t1, thread_safe_alloc g18 (some 4194304) init_trace = .ok t1) := by
  refine ⟨rfl, by decide, by decide, by decide, ⟨c9tr, by decide⟩⟩
/-- C3 (amended): on an allocation miss the refill order is list_empty
first, then list_partial: whenever the active slot is clear and
list_empty is non-empty, the allocator installs the head of list_empty
and serves its first free slot, leaving list_partial untouched — even if
partial slabs are available. -/
theorem C3_empty_list_checked_before_partial (g : Geom) (os : Option Nat) (t : Trace) (s : Slab) (es : List Slab) (o : Nat) (rest : List Nat) (hact : t.st.active = none) (hle : t.st.list_empty = s :: es) (hl : s.local_head = o :: rest) :
    ∃ t1, thread_safe_alloc g os t = .ok t1 ∧
      t1.rets = t.rets ++ [o] ∧
      t1.st.active = some { s with local_head := rest, active_obj_cnt := (s.active_obj_cnt + 1) % U32 } ∧
      t1.st.list_empty = es ∧
      t1.st.list_part = t.st.list_part := by
  refine ⟨{ st := { t.st with active := some { s with local_head := rest, active_obj_cnt := (s.active_obj_cnt + 1) % U32 }, list_empty := es, empty_slab_count := sub32 t.st.empty_slab_count 1, live := t.st.live ++ [o] }, rets := t.rets ++ [o], hooks := t.hooks ++ (if g.cons then [(true, o)] else []) }, ?_, rfl, rfl, rfl, rfl⟩
  unfold thread_safe_alloc
  rw [hact]
  unfold alloc_miss
  rw [hle]
  simp only []
  unfold pop_install
  rw [hl]

theorem C3_witness :
    (c3wtr.st.active = none ∧ c3wtr.st.list_empty = c6slabE 0 :: [] ∧
     (c6slabE 0).local_head = 4194368 :: (List.range 14).map (fun i => 4194368 + (i + 1) * 262144)) ∧
    ∃ t1, thread_safe_alloc g18 none c3wtr = .ok t1 ∧
      t1.rets = c3wtr.rets ++ [4194368] ∧
      t1.st.active = some { c6slabE 0 with local_head := (List.range 14).map (fun i => 4194368 + (i + 1) * 262144), active_obj_cnt := ((c6slabE 0).active_obj_cnt + 1) % U32 } ∧
      t1.st.list_empty = [] ∧
      t1.st.list_part = c3wtr.st.list_part :=
  ⟨⟨rfl, rfl, by decide⟩,
   C3_empty_list_checked_before_partial g18 none c3wtr (c6slabE 0) []
     4194368 ((List.range 14).map (fun i => 4194368 + (i + 1) * 262144))
     rfl rfl (by decide)⟩

/-- C3 counterexample: a run that leaves one partial slab (one free slot
at base 4194304) and one empty slab (base 8388608) with the active slot
drained; the next allocation installs the empty slab 8388608 rather than
the partial one, so partial slabs are not preferred over empty ones. -/
theorem C3_counterexample_partial_not_preferred :
    (stateOf (run g18 init_trace c3evs)).list_part.map (fun s => (s.base, s.local_head.length)) = [(4194304, 1)] ∧
    (stateOf (run g18 init_trace c3evs)).list_empty.map (fun s => s.base) = [8388608] ∧
    activeBaseOf (run g18 init_trace (c3evs ++ [Ev.alloc none])) = some 8388608 := by
  refine ⟨by decide, by decide, by decide⟩

/-- C4 (amended): when the active slab's local freelist is exhausted the
allocator retires it to list_full unconditionally — also when its remote
(atomic) freelist is non-empty, i.e. when objects have already been
returned to it by other threads. -/
theorem C4_retire_ignores_remote_chain (g : Geom) (os : Option Nat) (t : Trace) (s : Slab) (hA : t.st.active = some s) (hl : s.local_head = []) (hat : s.atomic_head ≠ []) :
    thread_safe_alloc g os t = alloc_miss g os { t with st := { t.st with active := none, list_full := s :: t.st.list_full } } := by
  unfold thread_safe_alloc
  rw [hA]
  simp only []
  rw [hl]
  rfl

theorem C4_witness :
    (c4wtr.st.active = some c4s ∧ c4s.local_head = [] ∧ c4s.atomic_head ≠ []) ∧
    thread_safe_alloc g18 none c4wtr = alloc_miss g18 none { c4wtr with st := { c4wtr.st with active := none, list_full := c4s :: c4wtr.st.list_full } } :=
  ⟨⟨rfl, rfl, by decide⟩,
   C4_retire_ignores_remote_chain g18 none c4wtr c4s rfl rfl (by decide)⟩

/-- C4 counterexample: after draining two slabs and remote-freeing one
object of the second, the next miss parks the second slab in list_full
with its remote chain still holding that object — a slab with free
objects sits in the full list. -/
theorem C4_counterexample_nonempty_slab_in_full :
    (stateOf (run g18 init_trace c4evs)).list_full.map (fun s => (s.base, s.atomic_head)) = [(8388608, [9699456]), (4194304, [])] := by
  decide

/-- C5: on a slab with a non-empty remote chain, reclaim_remote detaches
the whole atomic chain, splices it in front of the local freelist, and
subtracts its length from active_obj_cnt; under the slab invariants the
resulting count equals exactly the number of live objects of that slab,
and every slot is then either on the local freelist or live. -/
theorem C5_reclaim_restores_exact_count (g : Geom) (live : List Nat) (s : Slab) (hg : GeomOk g) (hch : slabChainsOk g s) (hacc : slabAccounted g live s) (hat : s.atomic_head ≠ []) :
    reclaim_remote s = (s.atomic_head.length, { s with atomic_head := [], local_head := s.atomic_head ++ s.local_head, active_obj_cnt := sub32 s.active_obj_cnt s.atomic_head.length }) ∧
    (reclaim_remote s).2.active_obj_cnt = countLive g live s.base ∧
    (reclaim_remote s).2.local_head.length + countLive g live s.base = g.obj_cnt := by
  have hspec := reclaim_remote_spec s hat
  obtain ⟨hs1, hs2, hs3, hcnt⟩ := hch
  obtain ⟨ha1, ha2, ha3⟩ := hacc
  have g8 : g.obj_cnt < U32 := hg.2.2.2.2.2.2.2.1
  have hcu : s.active_obj_cnt < U32 := by omega
  refine ⟨hspec, ?_, ?_⟩
  · rw [hspec]
    show sub32 s.active_obj_cnt s.atomic_head.length = countLive g live s.base
    rw [sub32_exact s.active_obj_cnt s.atomic_head.length (by omega) hcu]
    omega
  · rw [hspec]
    show (s.atomic_head ++ s.local_head).length + countLive g live s.base = g.obj_cnt
    rw [List.length_append]
    omega

theorem C5_witness :
    (GeomOk g18 ∧ slabChainsOk g18 c5s ∧ slabAccounted g18 c5st.live c5s ∧ c5s.atomic_head ≠ []) ∧
    (reclaim_remote c5s).2.active_obj_cnt = countLive g18 c5st.live c5s.base ∧
    (reclaim_remote c5s).2.active_obj_cnt = 14 ∧ c5s.active_obj_cnt = 15 := by
  have h := C5_reclaim_restores_exact_count g18 c5st.live c5s (by decide) (by decide) (by decide) (by decide)
  exact ⟨⟨by decide, by decide, by decide, by decide⟩, h.2.1, by decide, by decide⟩

/-- C7 (amended): on the size-73 cache the stored object size is 128;
every address any run ever returns is 64-byte aligned (not 128: slabs
with even color index place slots at 64 mod 128), and any two distinct
simultaneously live objects are at least 128 bytes apart. -/
theorem C7_size73_spacing (evs : List Ev) (t1 : Trace) (hrun : run g73 init_trace evs = .ok t1) :
    g73.obj_size = 128 ∧
    (∀ p ∈ t1.rets, p % 64 = 0) ∧
    (∀ a ∈ t1.st.live, ∀ b ∈ t1.st.live, a ≠ b → 128 ≤ Nat.dist a b) := by
  have hg : GeomOk g73 := mkCache_ok 73 false false (by decide) (by decide)
  have hinv := run_inv g73 hg evs init_trace (init_trace_inv g73) t1 hrun
  obtain ⟨hci, hrets⟩ := hinv
  have hob : g73.obj_size = 128 := by decide
  refine ⟨hob, ?_, ?_⟩
  · intro p hp
    obtain ⟨s, hs, hps⟩ := hrets p hp
    obtain ⟨hreg, hch, hacc, hmap⟩ := hci.1 s hs
    exact slot_mod64 g73 s p hg hreg (by decide) hps
  · have hsep := live_sep g73 t1 hg ⟨hci, hrets⟩
    intro a ha b hb hne
    have h2 := hsep a ha b hb hne
    rw [hob] at h2
    exact h2

theorem C7_witness :
    run g73 init_trace c7evs = .ok c7tr ∧
    (g73.obj_size = 128 ∧ (∀ p ∈ c7tr.rets, p % 64 = 0) ∧
     (∀ a ∈ c7tr.st.live, ∀ b ∈ c7tr.st.live, a ≠ b → 128 ≤ Nat.dist a b)) := by
  have h : run g73 init_trace c7evs = .ok c7tr := by decide
  exact ⟨h, C7_size73_spacing c7evs c7tr h⟩

/-- C7 counterexample: the 32 allocations of c7evs on the size-73 cache
include a returned address that is not 128-byte aligned (the color-0
slab places its slots at offset 64 mod 128), refuting `addr & 127 == 0`
for returned pointers. -/
theorem C7_counterexample_not_128_aligned :
    (retsOf (run g73 init_trace c7evs)).length = 32 ∧
    ¬ (∀ p ∈ retsOf (run g73 init_trace c7evs), p % 128 = 0) := by
  refine ⟨by decide, by decide⟩
/-- C9: on a cache with no hooks, allocating from the active slab and
immediately freeing the returned object is a no-op: the allocation pops
the local freelist head and the free pushes it back, restoring the
entire cache state exactly; only the log of returned addresses grows. -/
theorem C9_free_undoes_alloc (g : Geom) (t : Trace) (s : Slab) (o : Nat) (rest : List Nat) (hg : GeomOk g) (hinv : TraceInv g t) (hnc : g.cons = false) (hnd : g.dest = false) (hA : t.st.active = some s) (hown : s.owner = true) (hl : s.local_head = o :: rest) :
    ∃ t1, thread_safe_alloc g none t = .ok t1 ∧ t1.rets = t.rets ++ [o] ∧
      thread_safe_free g o t1 = .ok ⟨t.st, t.rets ++ [o], t.hooks⟩ := by
  have hoL : o ∈ s.local_head := by rw [hl]; exact List.mem_cons_self o rest
  have hsmem : s ∈ allSlabs t.st := by rw [allSlabs_active_some t.st s hA]; exact List.mem_cons_self s _
  obtain ⟨⟨hall, hnd2, hld, hls, he1, he2⟩, hrets⟩ := hinv
  obtain ⟨hreg, hch, hacc, hmap⟩ := hall s hsmem
  have hslots : o ∈ slotAddrs g s := hch.1 hoL
  have hsb : slab_of_addr g o = s.base := (slot_in_range g s o hg hreg hslots).2.2
  have hnl : o ∉ t.st.live := hacc.1 o hoL
  have hcu : s.active_obj_cnt < U32 := by
    have h4 := hch.2.2.2
    have g8 := hg.2.2.2.2.2.2.2.1
    omega
  refine ⟨{ st := { t.st with active := some { s with local_head := rest, active_obj_cnt := (s.active_obj_cnt + 1) % U32 }, live := t.st.live ++ [o] }, rets := t.rets ++ [o], hooks := t.hooks }, ?_, rfl, ?_⟩
  · unfold thread_safe_alloc
    rw [hA]
    simp only []
    rw [hl]
    simp only [List.isEmpty_cons, Bool.false_eq_true, if_false]
    unfold pop_install
    rw [hl]
    simp only [hnc, Bool.false_eq_true, if_false, List.append_nil]
  · have hfs : find_slab { t.st with active := some { s with local_head := rest, active_obj_cnt := (s.active_obj_cnt + 1) % U32 }, live := t.st.live ++ [o] } (slab_of_addr g o) = some (SlabLoc.act, { s with local_head := rest, active_obj_cnt := (s.active_obj_cnt + 1) % U32 }) := by
      unfold find_slab
      simp only []
      have hc : ({ s with local_head := rest, active_obj_cnt := (s.active_obj_cnt + 1) % U32 } : Slab).base = slab_of_addr g o := by rw [hsb]
      rw [if_pos hc]
    have hmemL : o ∈ t.st.live ++ [o] := List.mem_append_right _ (List.mem_singleton.mpr rfl)
    unfold thread_safe_free
    rw [if_pos hmemL]
    simp only []
    rw [hfs]
    simp only []
    have hco : ({ s with local_head := rest, active_obj_cnt := (s.active_obj_cnt + 1) % U32 } : Slab).owner = true := hown
    rw [if_pos hco]
    simp only [hnd, Bool.false_eq_true, if_false, List.append_nil]
    rw [erase_append_singleton t.st.live o hnl]
    have hfinal : ({ s with local_head := o :: rest, active_obj_cnt := sub32 ((s.active_obj_cnt + 1) % U32) 1 } : Slab) = s := by
      rw [sub32_one_add s.active_obj_cnt hcu, ← hl]
    rw [hfinal]
    rw [← hA]

theorem C9_witness :
    (GeomOk g18 ∧ TraceInv g18 c9tr ∧ g18.cons = false ∧ g18.dest = false ∧
     c9tr.st.active = some c9s ∧ c9s.owner = true ∧
     c9s.local_head = 4456512 :: (List.range 13).map (fun i => 4456512 + (i + 1) * 262144)) ∧
    ∃ t1, thread_safe_alloc g18 none c9tr = .ok t1 ∧ t1.rets = c9tr.rets ++ [4456512] ∧
      thread_safe_free g18 4456512 t1 = .ok ⟨c9tr.st, c9tr.rets ++ [4456512], c9tr.hooks⟩ :=
  ⟨⟨by decide, by decide, rfl, rfl, by decide, by decide, by decide⟩,
   C9_free_undoes_alloc g18 c9tr c9s 4456512
     ((List.range 13).map (fun i => 4456512 + (i + 1) * 262144))
     (by decide) (by decide) rfl rfl (by decide) (by decide) (by decide)⟩
